import Mathlib

/-!
# Verification of the flexDeploy coordination engine

Shallow embedding (in Lean 4) of the core components of the flexDeploy
progressive-rollout orchestrator, together with theorems settling the
specification claims about them:

* risk scoring (`src/server/simulator_service.py`,
  `src/simulator/src/master/device_manager.py`),
* the in-memory message channel (`src/aws-orchestrator/src/common/queue.py`),
* the deployment scheduler (`src/server/deployment_scheduler.py`),
* the master task scheduler and slave lifecycle
  (`src/aws-orchestrator/src/master/orchestrator.py`),
* ring assignment (`orchestrator.py`, `src/simulator/src/master/ring_manager.py`).

Python numbers (floats) are modelled as rationals, Python `int()` as
truncation toward zero, wall-clock instants as natural-number ticks, and
Python dicts as insertion-ordered association lists.
-/

namespace FlexDeploy

/-- Python `int()` applied to a rational: truncation toward zero. -/
def pyInt (q : ℚ) : ℤ := if 0 ≤ q then ⌊q⌋ else ⌈q⌉

/-- Embedding of `SimulatorService._calculate_risk_score`
(`src/server/simulator_service.py` lines 327-354).  The float literals
`1.5` and `0.58` are the rationals `3/2` and `29/50`. -/
def calculate_risk_score (avg_cpu_usage avg_memory_usage avg_disk_space : ℚ) : ℤ :=
  let avg_usage := (avg_cpu_usage + avg_memory_usage + (100 - avg_disk_space)) / 3
  let risk_score :=
    if avg_usage > 80 then pyInt (30 - (avg_usage - 80) * (3 / 2))
    else if avg_usage > 50 then pyInt (70 - (avg_usage - 50))
    else pyInt (71 + (50 - avg_usage) * (29 / 50))
  max 0 (min 100 risk_score)

/-- Embedding of `DeviceManager.calculate_device_risk_score`
(`src/simulator/src/master/device_manager.py` lines 65-77).  Takes the
three metric fields of the `DeviceStatus` it reads. -/
def calculate_device_risk_score (cpu_usage memory_usage disk_usage : ℚ) : ℤ :=
  let avg_usage := (cpu_usage + memory_usage + disk_usage) / 3
  if avg_usage > 80 then
    max 0 (min 30 (pyInt (30 * (1 - (avg_usage - 80) / 20))))
  else if avg_usage > 50 then
    max 31 (min 70 (pyInt (31 + 39 * (1 - (avg_usage - 50) / 30))))
  else
    max 71 (min 100 (pyInt (71 + 29 * (1 - avg_usage / 50))))

/-- The average resource pressure used by the server implementation:
`(cpu + memory + (100 - disk_space)) / 3`. -/
def serverAvg (cpu mem disk_space : ℚ) : ℚ := (cpu + mem + (100 - disk_space)) / 3

/-- The average resource pressure used by the device-manager implementation:
`(cpu + memory + disk_usage) / 3` (its third metric is disk *usage*,
i.e. `100 - freeDisk`). -/
def deviceAvg (cpu mem disk_usage : ℚ) : ℚ := (cpu + mem + disk_usage) / 3

end FlexDeploy

namespace FlexDeploy

/-! ## Message channel (`src/aws-orchestrator/src/common/queue.py`) -/

/-- Message types exchanged between master and slave agents
(`src/simulator/src/common/messages.py`). -/
inductive MessageType
  | task_assignment | task_result | task_status | heartbeat | shutdown
  | error | registration | ack | ring_assignment | device_status_update
  | modify_metrics
  deriving DecidableEq, Repr

/-- The message envelope (`messages.py`).  The dict payload is modelled
abstractly by a type parameter. -/
structure Message (π : Type) where
  message_type : MessageType
  sender_id : String
  receiver_id : String
  timestamp : Nat
  payload : π
  message_id : Option String := none
  deriving DecidableEq, Repr

/-- State of an `InMemoryQueue`: the wrapped `asyncio.Queue` (FIFO list
plus its `maxsize`, where `0` means unbounded) and the `_stats` counters. -/
structure InMemoryQueue (π : Type) where
  maxsize : Nat
  queue : List (Message π)
  sent : Nat := 0
  received : Nat := 0
  dropped : Nat := 0
  deriving DecidableEq, Repr

/-- `asyncio.Queue.full()`: a queue with `maxsize = 0` is never full. -/
def InMemoryQueue.full (q : InMemoryQueue π) : Bool :=
  q.maxsize ≠ 0 && q.maxsize ≤ q.queue.length

/-- Outcome of one call to `InMemoryQueue.send`.  `blocked` is the case in
which `await self.queue.put(message)` suspends because the bounded queue is
full: `asyncio.Queue.put` waits for a free slot and only `put_nowait`
raises `asyncio.QueueFull`, so control does not return to the caller. -/
inductive SendOutcome
  | delivered
  | blocked
  deriving DecidableEq, Repr

/-- Embedding of `InMemoryQueue.send` (`queue.py` lines 44-57).  On a
non-full queue, `await put` enqueues and the method returns `True`
(`sent` incremented).  On a full queue `await put` suspends, so the state
is unchanged; in particular the `except asyncio.QueueFull` branch that
would increment `dropped` and return `False` is never reached. -/
def InMemoryQueue.send (q : InMemoryQueue π) (m : Message π) :
    SendOutcome × InMemoryQueue π :=
  if q.full then (SendOutcome.blocked, q)
  else (SendOutcome.delivered, { q with queue := q.queue ++ [m], sent := q.sent + 1 })

/-! ## Deployment scheduler (`src/server/deployment_scheduler.py`) -/

/-- Status values stored in the `deployment_rings` table. -/
inductive RingStatus
  | notStarted | inProgress | completed | failed | stopped
  deriving DecidableEq, Repr

/-- One row of the `deployment_rings` table (for a fixed deployment). -/
structure DeploymentRing where
  ring_id : Nat
  status : RingStatus
  failure_reason : Option String := none
  deriving DecidableEq, Repr

/-- Status values stored in the `deployments` table. -/
inductive DeploymentStatus
  | notStarted | inProgress | completed | failed
  deriving DecidableEq, Repr

/-- The database state a run of `_run_deployment` reads and writes:
the deployment's ring rows and the deployment's rollup status.
Per-ring device counts are passed separately (the `devices` table is
only read through `SELECT COUNT(*) ... WHERE ring = ?`). -/
structure DeployState where
  rings : List DeploymentRing
  deployment_status : DeploymentStatus
  deriving DecidableEq, Repr

/-- `UPDATE deployment_rings SET status = ? WHERE deployment_id = ? AND ring_id = ?`
(the updates issued by the scheduler itself touch only `status`). -/
def setRingStatus (st : DeployState) (rid : Nat) (s : RingStatus) : DeployState :=
  { st with rings := st.rings.map fun r =>
      if r.ring_id = rid then { r with status := s } else r }

/-- Outcome of one call to the gating-evaluation collaborator
`simulator_service.check_gating_factors`: it returns
`{status:"passed"}` or `{status:"failed", failureReason:...}`, or the call
raises (network/service error), modelled by `raises`. -/
inductive GateDecision
  | passed
  | gateFailed (reason : String)
  | raises
  deriving DecidableEq, Repr

/-- Modelled from the spec: `SimulatorService.check_gating_factors` is called
by `DeploymentScheduler._run_deployment` but its definition is not part of the
repository snapshot (only its caller is, together with the caller's comment
"The check_gating_factors method already: 1. Marks the ring as Failed
2. Stops all other rings 3. Marks deployment as Failed").  Per the spec,
when gating fails it marks the evaluated ring `Failed` with the
collaborator's failure reason, marks every remaining
`NotStarted`/`InProgress` ring `Stopped`, and marks the deployment `Failed`;
when gating passes it leaves the state unchanged. -/
def check_gating_factors_update (decision : GateDecision) (rid : Nat)
    (st : DeployState) : DeployState :=
  match decision with
  | GateDecision.gateFailed reason =>
      { rings := st.rings.map fun r =>
          if r.ring_id = rid then
            { r with status := RingStatus.failed, failure_reason := some reason }
          else if r.status = RingStatus.notStarted ∨ r.status = RingStatus.inProgress then
            { r with status := RingStatus.stopped }
          else r,
        deployment_status := DeploymentStatus.failed }
  | _ => st

/-- Observable events of a `_run_deployment` run, in order. -/
inductive DeployEvent
  | ringCompleted (rid : Nat)
  | ringInProgress (rid : Nat)
  | dwell (rid : Nat)
  | gatingCall (rid : Nat)
  deriving DecidableEq, Repr

/-- The ring id an event refers to. -/
def DeployEvent.rid : DeployEvent → Nat
  | DeployEvent.ringCompleted r => r
  | DeployEvent.ringInProgress r => r
  | DeployEvent.dwell r => r
  | DeployEvent.gatingCall r => r

/-- The `for ring_id, ring_name, current_status in rings:` loop of
`_run_deployment` (lines 106-182).  `fetched` is the list of
`(ring_id, status)` pairs read by the initial `SELECT` (ordered by
`ring_id`); `devs` gives `SELECT COUNT(*) FROM devices WHERE ring = ?`.
Returns the updated state, the trace of events, and whether the gating
call raised (which aborts the loop into the `except Exception` handler). -/
def processRings (gate : Nat → GateDecision) (devs : Nat → Nat) :
    List (Nat × RingStatus) → DeployState → DeployState × List DeployEvent × Bool
  | [], st => (st, [], false)
  | (rid, fetchedStatus) :: rest, st =>
    if fetchedStatus = RingStatus.completed ∨ fetchedStatus = RingStatus.failed then
      -- Skip if ring is already completed or failed
      processRings gate devs rest st
    else if devs rid = 0 then
      -- No devices in ring - automatically mark as completed
      let st1 := setRingStatus st rid RingStatus.completed
      let (st2, tr, exc) := processRings gate devs rest st1
      (st2, DeployEvent.ringCompleted rid :: tr, exc)
    else
      -- Mark ring as In Progress, wait 30 seconds, check gating factors
      let st1 := setRingStatus st rid RingStatus.inProgress
      let pre := [DeployEvent.ringInProgress rid, DeployEvent.dwell rid,
                  DeployEvent.gatingCall rid]
      match gate rid with
      | GateDecision.raises => (st1, pre, true)
      | GateDecision.gateFailed reason =>
          -- Gating factors breached - deployment failed; stop processing (break)
          (check_gating_factors_update (GateDecision.gateFailed reason) rid st1,
           pre, false)
      | GateDecision.passed =>
          -- Gating factors passed - mark ring as Completed
          let st2 := setRingStatus st1 rid RingStatus.completed
          let (st3, tr, exc) := processRings gate devs rest st2
          (st3, pre ++ tr, exc)

/-- Embedding of `DeploymentScheduler._run_deployment` (lines 85-236):
fetch the ring rows once, run the progression loop, then either mark the
deployment `Completed` when every ring row is `Completed` (lines 184-206)
or — when the loop aborted with an exception — mark the deployment
`Failed` in the `except Exception` handler (lines 217-236). -/
def run_deployment (gate : Nat → GateDecision) (devs : Nat → Nat)
    (st : DeployState) : DeployState × List DeployEvent :=
  let fetched := st.rings.map fun r => (r.ring_id, r.status)
  let (st1, tr, exc) := processRings gate devs fetched st
  if exc then
    ({ st1 with deployment_status := DeploymentStatus.failed }, tr)
  else
    let completed_rings := (st1.rings.filter fun r => r.status = RingStatus.completed).length
    if completed_rings = fetched.length then
      ({ st1 with deployment_status := DeploymentStatus.completed }, tr)
    else (st1, tr)

/-- Status of the ring row with the given `ring_id`, if present. -/
def ringStatusById (st : DeployState) (rid : Nat) : Option RingStatus :=
  (st.rings.find? fun r => r.ring_id = rid).map DeploymentRing.status

/-- Failure reason of the ring row with the given `ring_id`, if present. -/
def ringReasonById (st : DeployState) (rid : Nat) : Option (Option String) :=
  (st.rings.find? fun r => r.ring_id = rid).map DeploymentRing.failure_reason

/-! ## Python dicts as insertion-ordered association lists -/

/-- `m[k]` / `m.get(k)`: value of the first (only) entry with key `k`. -/
def lookupA (m : List (String × β)) (k : String) : Option β :=
  (m.find? fun p => p.1 = k).map Prod.snd

/-- In-place mutation of the entry with key `k` (no-op when absent). -/
def updateA (m : List (String × β)) (k : String) (f : β → β) : List (String × β) :=
  m.map fun p => if p.1 = k then (p.1, f p.2) else p

/-- `m[k] = v`: replace in place when present, else append (dict order). -/
def insertA (m : List (String × β)) (k : String) (v : β) : List (String × β) :=
  if (m.find? fun p => p.1 = k).isSome then
    m.map fun p => if p.1 = k then (p.1, v) else p
  else m ++ [(k, v)]

/-- `del m[k]`. -/
def removeA (m : List (String × β)) (k : String) : List (String × β) :=
  m.filter fun p => ¬p.1 = k

/-! ## Master task scheduler (`src/aws-orchestrator/src/master/orchestrator.py`) -/

/-- `TaskStatus` (`src/simulator/src/common/messages.py`). -/
inductive PyTaskStatus
  | pending | inProgress | completed | failed | cancelled
  deriving DecidableEq, Repr

/-- The `Task` dataclass (`messages.py`), with the fields the scheduler
uses; `parameters`/`result` payloads are modelled as strings and times as
ticks. -/
structure OTask where
  task_id : String
  task_type : String
  parameters : String
  priority : Int
  status : PyTaskStatus := PyTaskStatus.pending
  assigned_to : Option String := none
  created_at : Option Nat := none
  started_at : Option Nat := none
  completed_at : Option Nat := none
  result : Option String := none
  error : Option String := none
  deriving DecidableEq, Repr

/-- A slave's `"status"` field. -/
inductive SlaveStatus
  | idle | busy | inError
  deriving DecidableEq, Repr

/-- The per-slave info dict created by `register_slave` (lines 209-219),
restricted to the fields the task scheduler reads and writes. -/
structure SlaveInfo where
  status : SlaveStatus
  last_heartbeat : Nat
  assigned_tasks : List String
  completed_tasks : Nat := 0
  failed_tasks : Nat := 0
  deriving DecidableEq, Repr

/-- The task-scheduling slice of `MasterOrchestrator` state:
`self.slaves`, `self.tasks` and `self.task_queue`.  The queue holds
references to the very objects stored in `self.tasks`, so it is modelled
as a list of task ids resolved through the task map. -/
structure MasterState where
  slaves : List (String × SlaveInfo)
  tasks : List (String × OTask)
  task_queue : List String
  deriving DecidableEq, Repr

/-- The sort key of `self.task_queue.sort(key=lambda t: t.priority, reverse=True)`:
the current `priority` of the queued task object. -/
def priorityOf (tasks : List (String × OTask)) (tid : String) : Int :=
  match lookupA tasks tid with
  | some t => t.priority
  | none => 0

/-- Stable insertion of `x` into a descending-sorted list: `x` is placed
before the first element whose key is `≤ key x` (so after every
strictly-greater element and before every equal-keyed element of the
already-sorted tail, which consists of elements that followed `x` in the
input). -/
def insertDescBy (key : String → Int) (x : String) : List String → List String
  | [] => [x]
  | y :: ys => if key y ≤ key x then x :: y :: ys else y :: insertDescBy key x ys

/-- Embedding of Python's `list.sort(key=..., reverse=True)`: a stable sort
producing key-descending order (CPython's sort is stable, and with
`reverse=True` equal-keyed elements still keep their original order). -/
def sortDescBy (key : String → Int) : List String → List String
  | [] => []
  | x :: xs => insertDescBy key x (sortDescBy key xs)

/-- The `Task(...)` constructed by `submit_task` (lines 240-247). -/
def newTask (task_id task_type parameters : String) (priority : Int) (now : Nat) : OTask :=
  { task_id, task_type, parameters, priority, created_at := some now }

/-- The body of the `for slave_id in idle_slaves:` loop of `_assign_tasks`
(lines 1204-1223), returning the updated state together with the
`TaskAssignment` sends `(task_id, slave_id)` it performed, in order. -/
def assignLoop (now : Nat) : List String → MasterState → MasterState × List (String × String)
  | [], st => (st, [])
  | slave_id :: restIdle, st =>
    match st.task_queue with
    | [] => (st, [])
    | tid :: qrest =>
      let st1 : MasterState :=
        { st with
          task_queue := qrest,
          tasks := updateA st.tasks tid fun t =>
            { t with assigned_to := some slave_id,
                     status := PyTaskStatus.inProgress,
                     started_at := some now },
          slaves := updateA st.slaves slave_id fun i =>
            { i with status := SlaveStatus.busy,
                     assigned_tasks := i.assigned_tasks ++ [tid] } }
      let (st2, evs) := assignLoop now restIdle st1
      (st2, (tid, slave_id) :: evs)

/-- Embedding of `MasterOrchestrator._assign_tasks` (lines 1189-1223):
return early when the queue is empty, compute the idle slaves once, then
pop tasks from the front of the queue for each idle slave in turn. -/
def assign_tasks (st : MasterState) (now : Nat) : MasterState × List (String × String) :=
  if st.task_queue.isEmpty then (st, [])
  else
    let idle_slaves := (st.slaves.filter fun p => p.2.status = SlaveStatus.idle).map Prod.fst
    assignLoop now idle_slaves st

/-- Embedding of `MasterOrchestrator.submit_task` (lines 238-258): create a
`Pending` task, store it, append it to the queue, re-sort the queue by
priority descending (stable), then attempt immediate assignment. -/
def submit_task (st : MasterState) (task_id task_type parameters : String)
    (priority : Int) (now : Nat) : MasterState × List (String × String) :=
  let task := newTask task_id task_type parameters priority now
  let tasks1 := insertA st.tasks task_id task
  let queue1 := sortDescBy (priorityOf tasks1) (st.task_queue ++ [task_id])
  assign_tasks { st with tasks := tasks1, task_queue := queue1 } now

/-- Embedding of `MasterOrchestrator._handle_task_result` (lines 1225-1255).
The reporting slave is assumed registered (the Python would raise a
`KeyError` otherwise). -/
def handle_task_result (st : MasterState) (slave_id task_id : String)
    (result error : Option String) (now : Nat) : MasterState × List (String × String) :=
  if (lookupA st.tasks task_id).isNone then (st, [])
  else
    let st1 : MasterState :=
      { st with
        tasks := updateA st.tasks task_id fun t =>
          match error with
          | some e => { t with completed_at := some now, status := PyTaskStatus.failed,
                               error := some e }
          | none => { t with completed_at := some now, status := PyTaskStatus.completed,
                             result := result },
        slaves := updateA st.slaves slave_id fun i =>
          { i with
            completed_tasks := if error.isNone then i.completed_tasks + 1 else i.completed_tasks,
            failed_tasks := if error.isSome then i.failed_tasks + 1 else i.failed_tasks,
            status := SlaveStatus.idle,
            assigned_tasks := if task_id ∈ i.assigned_tasks then
              i.assigned_tasks.erase task_id else i.assigned_tasks } }
    assign_tasks st1 now

/-- One iteration of the requeue loop in `_remove_slave` (lines 1463-1469):
`if task_id in self.tasks:` set the task back to `Pending` with
`assigned_to = None` and append it to the queue. -/
def requeueTask (acc : MasterState) (tid : String) : MasterState :=
  if (lookupA acc.tasks tid).isSome then
    { acc with
      tasks := updateA acc.tasks tid fun t =>
        { t with status := PyTaskStatus.pending, assigned_to := none },
      task_queue := acc.task_queue ++ [tid] }
  else acc

/-- Embedding of `MasterOrchestrator._remove_slave` (lines 1454-1472):
requeue every task id in the dead slave's `assigned_tasks` (status back to
`Pending`, `assigned_to` cleared, appended to the queue), then delete the
slave. -/
def remove_slave (st : MasterState) (slave_id : String) : MasterState :=
  match lookupA st.slaves slave_id with
  | none => st
  | some info =>
    let st1 := info.assigned_tasks.foldl requeueTask st
    { st1 with slaves := removeA st1.slaves slave_id }

/-- One scan of `MasterOrchestrator._heartbeat_monitor` (lines 1408-1427):
collect every slave whose last heartbeat is older than `slave_timeout`,
then remove each of them. -/
def heartbeat_scan (st : MasterState) (now timeout : Nat) : MasterState :=
  let dead_slaves := (st.slaves.filter fun p => timeout < now - p.2.last_heartbeat).map Prod.fst
  dead_slaves.foldl remove_slave st

/-- One scan of `MasterOrchestrator._task_monitor` (lines 1429-1452): every
`InProgress` task started more than `task_timeout` ago is marked `Failed`
with error "Task timeout"; if `task.priority < task_retry_limit` the task's
`priority` field is incremented and the task is requeued as `Pending`. -/
def task_monitor_scan (st : MasterState) (now task_timeout : Nat)
    (task_retry_limit : Int) : MasterState :=
  (st.tasks.map Prod.fst).foldl (fun (acc : MasterState) tid =>
    match lookupA acc.tasks tid with
    | none => acc
    | some t =>
      match t.started_at with
      | none => acc
      | some s =>
        if t.status = PyTaskStatus.inProgress ∧ task_timeout < now - s then
          let t1 : OTask := { t with status := PyTaskStatus.failed, error := some "Task timeout" }
          if t1.priority < task_retry_limit then
            { acc with
              tasks := updateA acc.tasks tid fun _ =>
                { t1 with priority := t1.priority + 1, status := PyTaskStatus.pending },
              task_queue := acc.task_queue ++ [tid] }
          else { acc with tasks := updateA acc.tasks tid fun _ => t1 }
        else acc) st

/-! ## Ring assignment (`orchestrator.py`, `src/simulator/src/master/ring_manager.py`) -/

/-- `RingType` (`src/simulator/src/common/messages.py`). -/
inductive PyRingType
  | canary | dev | stage | prod | unassigned
  deriving DecidableEq, Repr

/-- The fields of `DeviceStatus` (`messages.py`) used by health checks,
risk scoring and ring assignment. -/
structure PyDeviceStatus where
  slave_id : String
  battery_level : ℤ
  battery_charging : Bool
  cpu_usage : ℚ
  memory_usage : ℚ
  disk_usage : ℚ
  assigned_ring : PyRingType := PyRingType.unassigned
  deriving DecidableEq, Repr

/-- `DeviceStatus.is_healthy` (`messages.py` lines 95-101):
`battery_level > 20 and cpu_usage < 80 and memory_usage < 85`. -/
def PyDeviceStatus.is_healthy (d : PyDeviceStatus) : Bool :=
  d.battery_level > 20 && d.cpu_usage < 80 && d.memory_usage < 85

/-- `RingManager._determine_optimal_ring` (`ring_manager.py` lines 83-99)
applied to the device's status (the slave-not-found early return is the
caller's concern). -/
def determine_optimal_ring (d : PyDeviceStatus) : PyRingType :=
  let risk_score := calculate_device_risk_score d.cpu_usage d.memory_usage d.disk_usage
  if risk_score ≥ 80 ∧ d.cpu_usage ≤ 25 then PyRingType.prod
  else if risk_score ≥ 50 ∧ d.cpu_usage ≤ 60 then PyRingType.dev
  else if risk_score ≥ 25 then PyRingType.stage
  else PyRingType.canary

/-- Membership lookup in the ring dict. -/
def ringList (ras : List (PyRingType × List String)) (r : PyRingType) : Option (List String) :=
  (ras.find? fun p => p.1 = r).map Prod.snd

/-- Mutate the member list of ring `r` in place (no-op when the key is
absent). -/
def updateRing (ras : List (PyRingType × List String)) (r : PyRingType)
    (f : List String → List String) : List (PyRingType × List String) :=
  ras.map fun p => if p.1 = r then (p.1, f p.2) else p

/-- `if ring not in self.ring_assignments: self.ring_assignments[ring] = []`
followed by `self.ring_assignments[ring].append(slave_id)`. -/
def appendToRing (ras : List (PyRingType × List String)) (r : PyRingType)
    (sid : String) : List (PyRingType × List String) :=
  if (ras.find? fun p => p.1 = r).isSome then updateRing ras r (fun l => l ++ [sid])
  else ras ++ [(r, [sid])]

/-- The ring-assignment slice of `MasterOrchestrator` state:
`self.ring_assignments`, `self.device_statuses` and the registered
slave-id set (`self.slaves` keys). -/
structure RingState where
  ring_assignments : List (PyRingType × List String)
  device_statuses : List (String × PyDeviceStatus)
  slaves : List String
  deriving DecidableEq, Repr

/-- Embedding of `MasterOrchestrator.assign_slave_to_ring` (lines 1328-1362):
fail when the slave is unknown; otherwise remove the slave from the ring
recorded in its device status (when that status exists and the recorded
ring's list contains it), append it to the new ring's list, and update the
device status's `assigned_ring`. -/
def assign_slave_to_ring (st : RingState) (slave_id : String) (ring : PyRingType) :
    RingState :=
  if slave_id ∉ st.slaves then st
  else
    let ras1 :=
      match lookupA st.device_statuses slave_id with
      | some d => updateRing st.ring_assignments d.assigned_ring (fun l => l.erase slave_id)
      | none => st.ring_assignments
    let ras2 := appendToRing ras1 ring slave_id
    { st with
      ring_assignments := ras2,
      device_statuses := updateA st.device_statuses slave_id fun d =>
        { d with assigned_ring := ring } }

/-- The random draw of `random.choice([RingType.CANARY, RingType.DEV])`:
a uniformly-drawn index into the two-element list. -/
def choiceCanaryDev (i : Fin 2) : PyRingType :=
  [PyRingType.canary, PyRingType.dev].get i

/-- First key with the minimal value among the (insertion-ordered) ring
counts, as computed by Python's `min(ring_counts, key=ring_counts.get)`. -/
def minCountRing (counts : List (PyRingType × Nat)) : PyRingType :=
  match counts with
  | [] => PyRingType.unassigned
  | (r, n) :: rest =>
    (rest.foldl (fun (best : PyRingType × Nat) p =>
      if p.2 < best.2 then p else best) (r, n)).1

/-- Embedding of `MasterOrchestrator._auto_assign_ring` (lines 1303-1326):
no-op without a device status; a healthy device goes to the ring with the
fewest members (CANARY/DEV/STAGE/PROD, first minimum wins), an unhealthy
one to `random.choice([CANARY, DEV])`. -/
def auto_assign_ring (st : RingState) (slave_id : String) (i : Fin 2) : RingState :=
  match lookupA st.device_statuses slave_id with
  | none => st
  | some d =>
    let assigned_ring :=
      if d.is_healthy then
        minCountRing
          ([PyRingType.canary, PyRingType.dev, PyRingType.stage, PyRingType.prod].map
            fun r => (r, ((ringList st.ring_assignments r).getD []).length))
      else choiceCanaryDev i
    assign_slave_to_ring st slave_id assigned_ring

/-- The ring chosen by `_auto_assign_ring` for a device (the value of its
`assigned_ring` local). -/
def autoAssignChoice (st : RingState) (d : PyDeviceStatus) (i : Fin 2) : PyRingType :=
  if d.is_healthy then
    minCountRing
      ([PyRingType.canary, PyRingType.dev, PyRingType.stage, PyRingType.prod].map
        fun r => (r, ((ringList st.ring_assignments r).getD []).length))
  else choiceCanaryDev i

/-- The ring-assignment slice of the simulator's `RingManager`:
`self.ring_assignments` plus the shared `device_manager.device_statuses`. -/
structure RMState where
  ring_assignments : List (PyRingType × List String)
  device_statuses : List (String × PyDeviceStatus)
  deriving DecidableEq, Repr

/-- Embedding of `RingManager.assign_to_ring` (`ring_manager.py` lines
64-81): remove the slave from **every** ring list that contains it, append
it to the target ring's list, and update the device status (when present). -/
def rm_assign_to_ring (st : RMState) (slave_id : String) (ring : PyRingType) : RMState :=
  let ras1 := st.ring_assignments.map fun p =>
    (p.1, if slave_id ∈ p.2 then p.2.erase slave_id else p.2)
  let ras2 := appendToRing ras1 ring slave_id
  { ring_assignments := ras2,
    device_statuses := updateA st.device_statuses slave_id fun d =>
      { d with assigned_ring := ring } }

/-! ## Invariants and auxiliary predicates -/

/-- The risk score as a function of the server implementation's average
(`calculate_risk_score` factors through it — see
`calculate_risk_score_eq_serverScore`). -/
def serverScore (avg : ℚ) : ℤ :=
  let risk_score :=
    if avg > 80 then pyInt (30 - (avg - 80) * (3 / 2))
    else if avg > 50 then pyInt (70 - (avg - 50))
    else pyInt (71 + (50 - avg) * (29 / 50))
  max 0 (min 100 risk_score)

/-- The risk score as a function of the device-manager implementation's
average (`calculate_device_risk_score` factors through it). -/
def deviceScore (avg : ℚ) : ℤ :=
  if avg > 80 then
    max 0 (min 30 (pyInt (30 * (1 - (avg - 80) / 20))))
  else if avg > 50 then
    max 31 (min 70 (pyInt (31 + 39 * (1 - (avg - 50) / 30))))
  else
    max 71 (min 100 (pyInt (71 + 29 * (1 - avg / 50))))

/-- Consistency between the task map and the slaves' `assigned_tasks`
lists, as maintained by `_assign_tasks` (which records the assignment in
both places) and `_handle_task_result` (which clears both): an `InProgress`
task assigned to agent `a` is listed in `a`'s `assigned_tasks` and in no
other slave's list. -/
def TasksConsistent (st : MasterState) : Prop :=
  ∀ tid t, lookupA st.tasks tid = some t → t.status = PyTaskStatus.inProgress →
    ∀ a, t.assigned_to = some a →
      ∀ sid info, lookupA st.slaves sid = some info →
        (tid ∈ info.assigned_tasks ↔ sid = a)

/-- Each agent id is a member of at most one ring's membership list. -/
def atMostOneRing (ras : List (PyRingType × List String)) : Prop :=
  ∀ sid r1 r2 l1 l2, ringList ras r1 = some l1 → ringList ras r2 = some l2 →
    sid ∈ l1 → sid ∈ l2 → r1 = r2

/-- Well-formedness of the orchestrator's ring state, as established by
`register_slave` (which always stores a device status before ring
assignment) and maintained by every (re)assignment: ring keys are unique,
membership lists are duplicate-free, every member's device status records
exactly the ring it belongs to, and every registered slave has a device
status. -/
def RingWF (st : RingState) : Prop :=
  (st.ring_assignments.map Prod.fst).Nodup ∧
  (∀ r l, ringList st.ring_assignments r = some l → l.Nodup) ∧
  (∀ r l sid, ringList st.ring_assignments r = some l → sid ∈ l →
     ∃ d, lookupA st.device_statuses sid = some d ∧ d.assigned_ring = r) ∧
  (∀ sid, sid ∈ st.slaves → (lookupA st.device_statuses sid).isSome = true)

/-- Well-formedness of the simulator `RingManager` state: unique ring
keys, duplicate-free membership lists, and each agent in at most one ring. -/
def RMWF (st : RMState) : Prop :=
  (st.ring_assignments.map Prod.fst).Nodup ∧
  (∀ r l, ringList st.ring_assignments r = some l → l.Nodup) ∧
  atMostOneRing st.ring_assignments

/-- A sequence of (auto/manual/rebalance) ring assignments on the
orchestrator — each of those operations funnels into
`assign_slave_to_ring`. -/
def applyAssignOps (ops : List (String × PyRingType)) (st : RingState) : RingState :=
  ops.foldl (fun s op => assign_slave_to_ring s op.1 op.2) st

/-- A sequence of ring assignments on the simulator `RingManager`. -/
def applyRMOps (ops : List (String × PyRingType)) (st : RMState) : RMState :=
  ops.foldl (fun s op => rm_assign_to_ring s op.1 op.2) st

/-! ## Concrete instances used in scenarios, counterexamples and witnesses -/

/-- A heartbeat message. -/
def hbMsg (ts : Nat) : Message Unit :=
  { message_type := MessageType.heartbeat, sender_id := "slave-1",
    receiver_id := "master-001", timestamp := ts, payload := () }

/-- A bounded channel (`maxsize = 1`) that already holds one message. -/
def fullChannel : InMemoryQueue Unit := { maxsize := 1, queue := [hbMsg 0] }

/-- A fresh four-ring deployment (rings 0-3, all `NotStarted`). -/
def st4 : DeployState :=
  { rings := [⟨0, RingStatus.notStarted, none⟩, ⟨1, RingStatus.notStarted, none⟩,
              ⟨2, RingStatus.notStarted, none⟩, ⟨3, RingStatus.notStarted, none⟩],
    deployment_status := DeploymentStatus.inProgress }

/-- Gating collaborator that fails ring 1 with "cpu exceeds threshold". -/
def gateFail1 : Nat → GateDecision := fun rid =>
  if rid = 1 then GateDecision.gateFailed "cpu exceeds threshold" else GateDecision.passed

/-- Gating collaborator whose call raises on ring 1. -/
def gateRaise1 : Nat → GateDecision := fun rid =>
  if rid = 1 then GateDecision.raises else GateDecision.passed

/-- Five devices in every ring. -/
def devs5 : Nat → Nat := fun _ => 5

/-- Ring 0 empty, five devices elsewhere. -/
def devs01 : Nat → Nat := fun r => if r = 0 then 0 else 5

/-- A master with a single idle registered agent and no tasks. -/
def ms0 : MasterState :=
  { slaves := [("s1", { status := SlaveStatus.idle, last_heartbeat := 0,
                        assigned_tasks := [] })],
    tasks := [], task_queue := [] }

/-- Scenario: submit priorities [5, 1, 5] to `ms0`, completing each
assigned task in turn; `(state, trace)` after each step. -/
def step1 : MasterState × List (String × String) := submit_task ms0 "T1" "test" "" 5 1

def step2 : MasterState × List (String × String) := submit_task step1.1 "T2" "test" "" 1 2

def step3 : MasterState × List (String × String) := submit_task step2.1 "T3" "test" "" 5 3

def step4 : MasterState × List (String × String) :=
  handle_task_result step3.1 "s1" "T1" (some "ok") none 4

def step5 : MasterState × List (String × String) :=
  handle_task_result step4.1 "s1" "T3" (some "ok") none 5

/-- The in-progress task "T1" of `ms5` (priority 0, started at tick 0). -/
def msTask1 : OTask :=
  { task_id := "T1", task_type := "test", parameters := "", priority := 0,
    status := PyTaskStatus.inProgress, assigned_to := some "s1",
    started_at := some 0 }

/-- The busy agent "s1" of `ms5`, running "T1", last heartbeat at tick 0. -/
def msSlave1 : SlaveInfo :=
  { status := SlaveStatus.busy, last_heartbeat := 0, assigned_tasks := ["T1"] }

/-- A master with one busy agent running task "T1" (priority 0, started at
tick 0). -/
def ms5 : MasterState :=
  { slaves := [("s1", msSlave1)], tasks := [("T1", msTask1)], task_queue := [] }

/-- A master with one idle agent and one queued task (witness state). -/
def msW : MasterState :=
  { slaves := [("s1", { status := SlaveStatus.idle, last_heartbeat := 0,
                        assigned_tasks := [] })],
    tasks := [("T1", newTask "T1" "test" "" 5 0)],
    task_queue := ["T1"] }

/-- An unhealthy device (battery 10 ≤ 20) with very low resource usage. -/
def unhealthyDevice : PyDeviceStatus :=
  { slave_id := "s1", battery_level := 10, battery_charging := false,
    cpu_usage := 5, memory_usage := 10, disk_usage := 10 }

/-- An orchestrator ring state with one registered slave holding a device
status and no ring lists yet. -/
def ringSt0 : RingState :=
  { ring_assignments := [], device_statuses := [("s1", unhealthyDevice)],
    slaves := ["s1"] }

/-- A `RingManager` state with no ring lists yet. -/
def rmSt0 : RMState :=
  { ring_assignments := [], device_statuses := [("s1", unhealthyDevice)] }

end FlexDeploy

namespace FlexDeploy

/-! ## Theorems -/

theorem pyInt_eq_floor {q : ℚ} (h : 0 ≤ q) : pyInt q = ⌊q⌋ := by
  simp [pyInt, h]

theorem pyInt_le_of_le {q : ℚ} {n : ℤ} (h : q ≤ (n : ℚ)) : pyInt q ≤ n := by
  unfold pyInt
  split
  · have := Int.floor_le_floor (α := ℚ) h
    simpa using this
  · exact Int.ceil_le.mpr h

theorem le_pyInt_of_le {q : ℚ} {n : ℤ} (h : (n : ℚ) ≤ q) : n ≤ pyInt q := by
  unfold pyInt
  split
  · exact Int.le_floor.mpr h
  · exact le_trans (by exact_mod_cast h.trans (Int.le_ceil q)) le_rfl

theorem pyInt_mono : Monotone pyInt := by
  intro a b hab
  unfold pyInt
  split <;> split
  · exact Int.floor_le_floor hab
  · rename_i h1 h2; exact absurd (h1.trans hab) h2
  · rename_i h1 h2
    calc ⌈a⌉ ≤ (0:ℤ) := Int.ceil_le.mpr (by exact_mod_cast le_of_not_le h1)
    _ ≤ ⌊b⌋ := Int.floor_nonneg.mpr h2
  · exact Int.ceil_le_ceil hab

theorem calculate_risk_score_eq_serverScore (c m d : ℚ) :
    calculate_risk_score c m d = serverScore (serverAvg c m d) := rfl

theorem calculate_device_risk_score_eq_deviceScore (c m d : ℚ) :
    calculate_device_risk_score c m d = deviceScore (deviceAvg c m d) := rfl

theorem clampZ_mono (lo hi : ℤ) : Monotone (fun x : ℤ => max lo (min hi x)) :=
  fun _ _ h => max_le_max le_rfl (min_le_min le_rfl h)

theorem serverScore_nonneg (avg : ℚ) : 0 ≤ serverScore avg := le_max_left _ _

theorem serverScore_le_100 (avg : ℚ) : serverScore avg ≤ 100 :=
  max_le (by norm_num) (min_le_left _ _)

theorem serverScore_band1 {avg : ℚ} (h80 : 80 < avg) :
    0 ≤ serverScore avg ∧ serverScore avg ≤ 30 := by
  unfold serverScore
  rw [if_pos h80]
  constructor
  · exact le_max_left _ _
  · refine max_le (by norm_num) ((min_le_right _ _).trans ?_)
    exact pyInt_le_of_le (by push_cast; linarith)

theorem serverScore_band2 {avg : ℚ} (h50 : 50 < avg) (h80 : avg ≤ 80) :
    31 ≤ serverScore avg ∧ serverScore avg ≤ 70 := by
  unfold serverScore
  rw [if_neg (by linarith), if_pos h50]
  constructor
  · refine le_trans ?_ (le_max_right _ _)
    exact le_min (by norm_num) (le_pyInt_of_le (by push_cast; linarith))
  · refine max_le (by norm_num) ((min_le_right _ _).trans ?_)
    exact pyInt_le_of_le (by push_cast; linarith)

theorem serverScore_band3 {avg : ℚ} (h50 : avg ≤ 50) :
    71 ≤ serverScore avg ∧ serverScore avg ≤ 100 := by
  unfold serverScore
  rw [if_neg (by linarith), if_neg (by linarith)]
  refine ⟨le_trans ?_ (le_max_right _ _), max_le (by norm_num) (min_le_left _ _)⟩
  refine le_min (by norm_num) (le_pyInt_of_le ?_)
  push_cast
  nlinarith

theorem serverScore_antitone1 {a b : ℚ} (ha : 80 < a) (hab : a ≤ b) :
    serverScore b ≤ serverScore a := by
  unfold serverScore
  rw [if_pos ha, if_pos (lt_of_lt_of_le ha hab)]
  exact clampZ_mono 0 100 (pyInt_mono (by linarith))

theorem serverScore_antitone2 {a b : ℚ} (ha : 50 < a) (hb : b ≤ 80) (hab : a ≤ b) :
    serverScore b ≤ serverScore a := by
  unfold serverScore
  rw [if_neg (show ¬b > 80 by linarith), if_pos (show b > 50 by linarith),
      if_neg (show ¬a > 80 by linarith), if_pos (show a > 50 from ha)]
  exact clampZ_mono 0 100 (pyInt_mono (by linarith))

theorem serverScore_antitone3 {a b : ℚ} (hb : b ≤ 50) (hab : a ≤ b) :
    serverScore b ≤ serverScore a := by
  unfold serverScore
  rw [if_neg (show ¬b > 80 by linarith), if_neg (show ¬b > 50 by linarith),
      if_neg (show ¬a > 80 by linarith), if_neg (show ¬a > 50 by linarith)]
  refine clampZ_mono 0 100 (pyInt_mono ?_)
  nlinarith

theorem deviceScore_band1 {avg : ℚ} (h80 : 80 < avg) :
    0 ≤ deviceScore avg ∧ deviceScore avg ≤ 30 := by
  unfold deviceScore
  rw [if_pos h80]
  exact ⟨le_max_left _ _, max_le (by norm_num) (min_le_left _ _)⟩

theorem deviceScore_band2 {avg : ℚ} (h50 : 50 < avg) (h80 : avg ≤ 80) :
    31 ≤ deviceScore avg ∧ deviceScore avg ≤ 70 := by
  unfold deviceScore
  rw [if_neg (by linarith), if_pos h50]
  exact ⟨le_max_left _ _, max_le (by norm_num) (min_le_left _ _)⟩

theorem deviceScore_band3 {avg : ℚ} (h50 : avg ≤ 50) :
    71 ≤ deviceScore avg ∧ deviceScore avg ≤ 100 := by
  unfold deviceScore
  rw [if_neg (by linarith), if_neg (by linarith)]
  exact ⟨le_max_left _ _, max_le (by norm_num) (min_le_left _ _)⟩

theorem deviceScore_bounds (avg : ℚ) : 0 ≤ deviceScore avg ∧ deviceScore avg ≤ 100 := by
  by_cases h80 : 80 < avg
  · obtain ⟨h1, h2⟩ := deviceScore_band1 h80
    exact ⟨h1, h2.trans (by norm_num)⟩
  · by_cases h50 : 50 < avg
    · obtain ⟨h1, h2⟩ := deviceScore_band2 h50 (le_of_not_lt h80)
      exact ⟨le_trans (by norm_num) h1, h2.trans (by norm_num)⟩
    · obtain ⟨h1, h2⟩ := deviceScore_band3 (le_of_not_lt h50)
      exact ⟨le_trans (by norm_num) h1, h2⟩

theorem deviceScore_antitone1 {a b : ℚ} (ha : 80 < a) (hab : a ≤ b) :
    deviceScore b ≤ deviceScore a := by
  unfold deviceScore
  rw [if_pos ha, if_pos (lt_of_lt_of_le ha hab)]
  refine clampZ_mono 0 30 (pyInt_mono ?_)
  nlinarith

theorem deviceScore_antitone2 {a b : ℚ} (ha : 50 < a) (hb : b ≤ 80) (hab : a ≤ b) :
    deviceScore b ≤ deviceScore a := by
  unfold deviceScore
  rw [if_neg (show ¬b > 80 by linarith), if_pos (show b > 50 by linarith),
      if_neg (show ¬a > 80 by linarith), if_pos (show a > 50 from ha)]
  refine clampZ_mono 31 70 (pyInt_mono ?_)
  nlinarith

theorem deviceScore_antitone3 {a b : ℚ} (hb : b ≤ 50) (hab : a ≤ b) :
    deviceScore b ≤ deviceScore a := by
  unfold deviceScore
  rw [if_neg (show ¬b > 80 by linarith), if_neg (show ¬b > 50 by linarith),
      if_neg (show ¬a > 80 by linarith), if_neg (show ¬a > 50 by linarith)]
  refine clampZ_mono 71 100 (pyInt_mono ?_)
  nlinarith

/-- **C8**: for every device metrics input, both risk-score implementations
return an integer in [0,100]; with the implementation's average resource
pressure `avg`, the result lies in [0,30] when `avg > 80`, in [31,70] when
`50 < avg ≤ 80`, and in [71,100] when `avg ≤ 50`, and within each band the
score is decreasing (antitone) in the average pressure — despite the two
implementations' different linear-interpolation constants. -/
theorem c8_risk_score_bands :
    (∀ cpu mem disk_space : ℚ,
      (0 ≤ calculate_risk_score cpu mem disk_space ∧
        calculate_risk_score cpu mem disk_space ≤ 100) ∧
      (80 < serverAvg cpu mem disk_space →
        0 ≤ calculate_risk_score cpu mem disk_space ∧
        calculate_risk_score cpu mem disk_space ≤ 30) ∧
      (50 < serverAvg cpu mem disk_space → serverAvg cpu mem disk_space ≤ 80 →
        31 ≤ calculate_risk_score cpu mem disk_space ∧
        calculate_risk_score cpu mem disk_space ≤ 70) ∧
      (serverAvg cpu mem disk_space ≤ 50 →
        71 ≤ calculate_risk_score cpu mem disk_space ∧
        calculate_risk_score cpu mem disk_space ≤ 100)) ∧
    (∀ cpu mem disk_usage : ℚ,
      (0 ≤ calculate_device_risk_score cpu mem disk_usage ∧
        calculate_device_risk_score cpu mem disk_usage ≤ 100) ∧
      (80 < deviceAvg cpu mem disk_usage →
        0 ≤ calculate_device_risk_score cpu mem disk_usage ∧
        calculate_device_risk_score cpu mem disk_usage ≤ 30) ∧
      (50 < deviceAvg cpu mem disk_usage → deviceAvg cpu mem disk_usage ≤ 80 →
        31 ≤ calculate_device_risk_score cpu mem disk_usage ∧
        calculate_device_risk_score cpu mem disk_usage ≤ 70) ∧
      (deviceAvg cpu mem disk_usage ≤ 50 →
        71 ≤ calculate_device_risk_score cpu mem disk_usage ∧
        calculate_device_risk_score cpu mem disk_usage ≤ 100)) ∧
    (∀ c m d c' m' d' : ℚ, serverAvg c m d ≤ serverAvg c' m' d' →
      (80 < serverAvg c m d →
        calculate_risk_score c' m' d' ≤ calculate_risk_score c m d) ∧
      (50 < serverAvg c m d → serverAvg c' m' d' ≤ 80 →
        calculate_risk_score c' m' d' ≤ calculate_risk_score c m d) ∧
      (serverAvg c' m' d' ≤ 50 →
        calculate_risk_score c' m' d' ≤ calculate_risk_score c m d)) ∧
    (∀ c m d c' m' d' : ℚ, deviceAvg c m d ≤ deviceAvg c' m' d' →
      (80 < deviceAvg c m d →
        calculate_device_risk_score c' m' d' ≤ calculate_device_risk_score c m d) ∧
      (50 < deviceAvg c m d → deviceAvg c' m' d' ≤ 80 →
        calculate_device_risk_score c' m' d' ≤ calculate_device_risk_score c m d) ∧
      (deviceAvg c' m' d' ≤ 50 →
        calculate_device_risk_score c' m' d' ≤ calculate_device_risk_score c m d)) := by
  refine ⟨?_, ?_, ?_, ?_⟩
  · intro cpu mem disk_space
    rw [calculate_risk_score_eq_serverScore]
    set avg := serverAvg cpu mem disk_space with havg
    refine ⟨⟨serverScore_nonneg avg, serverScore_le_100 avg⟩, ?_, ?_, ?_⟩
    · exact fun h => serverScore_band1 h
    · exact fun h1 h2 => serverScore_band2 h1 h2
    · exact fun h => serverScore_band3 h
  · intro cpu mem disk_usage
    rw [calculate_device_risk_score_eq_deviceScore]
    set avg := deviceAvg cpu mem disk_usage with havg
    refine ⟨deviceScore_bounds avg, ?_, ?_, ?_⟩
    · exact fun h => deviceScore_band1 h
    · exact fun h1 h2 => deviceScore_band2 h1 h2
    · exact fun h => deviceScore_band3 h
  · intro c m d c' m' d' hle
    rw [calculate_risk_score_eq_serverScore, calculate_risk_score_eq_serverScore]
    exact ⟨fun h => serverScore_antitone1 h hle,
           fun h1 h2 => serverScore_antitone2 h1 h2 hle,
           fun h => serverScore_antitone3 h hle⟩
  · intro c m d c' m' d' hle
    rw [calculate_device_risk_score_eq_deviceScore, calculate_device_risk_score_eq_deviceScore]
    exact ⟨fun h => deviceScore_antitone1 h hle,
           fun h1 h2 => deviceScore_antitone2 h1 h2 hle,
           fun h => deviceScore_antitone3 h hle⟩

/-- Witness for C8 at concrete metrics: server avg `(95+92+88)/3 > 80`
(high band), device avg `(60+70+50)/3 = 60` (middle band), and a
low-band monotonicity instance. -/
theorem c8_risk_score_bands_witness :
    (0 ≤ calculate_risk_score 95 92 12 ∧ calculate_risk_score 95 92 12 ≤ 30) ∧
    (31 ≤ calculate_device_risk_score 60 70 50 ∧
      calculate_device_risk_score 60 70 50 ≤ 70) ∧
    calculate_risk_score 30 40 80 ≤ calculate_risk_score 20 30 90 := by
  obtain ⟨hA, hB, hC, _⟩ := c8_risk_score_bands
  refine ⟨(hA 95 92 12).2.1 (by norm_num [serverAvg]), ?_, ?_⟩
  · exact (hB 60 70 50).2.2.1 (by norm_num [deviceAvg]) (by norm_num [deviceAvg])
  · exact (hC 20 30 90 30 40 80 (by norm_num [serverAvg])).2.2 (by norm_num [serverAvg])

/-- **C2** (code evaluated at the failing input): on a full bounded channel
`send` does not return `False` with the message dropped — `await
self.queue.put(message)` suspends (only `put_nowait` raises
`asyncio.QueueFull`), so the caller blocks and the `dropped` counter is
unchanged, contradicting the never-blocks/drop-on-full contract. -/
theorem c2_send_blocks_on_full_channel :
    (fullChannel.send (hbMsg 1)).1 = SendOutcome.blocked ∧
    (fullChannel.send (hbMsg 1)).2 = fullChannel ∧
    (fullChannel.send (hbMsg 1)).2.dropped = 0 := by
  decide

/-- **C5** (code evaluated at the failing input): a task submitted with
priority 0 that times out once is requeued with `priority = 1` — the code
reuses the scheduling-priority field as the retry counter, so the retried
task does not keep the priority it was submitted with. -/
theorem c5_timeout_retry_mutates_priority :
    (lookupA ms5.tasks "T1").map OTask.priority = some 0 ∧
    (lookupA (task_monitor_scan ms5 100 60 3).tasks "T1").map OTask.priority = some 1 ∧
    (lookupA (task_monitor_scan ms5 100 60 3).tasks "T1").map OTask.status =
      some PyTaskStatus.pending ∧
    (task_monitor_scan ms5 100 60 3).task_queue = ["T1"] ∧
    ¬((lookupA (task_monitor_scan ms5 100 60 3).tasks "T1").map OTask.priority =
      (lookupA ms5.tasks "T1").map OTask.priority) := by
  decide

/-- **C3 counterexample**: when the gating call raises on ring 1 of a
four-ring deployment, the code marks only the deployment `Failed`; ring 1
stays `In Progress` (not `Failed`) and rings 2 and 3 stay `Not Started`
(not `Stopped`), refuting "treats it exactly as a gating failure". -/
theorem c3_gating_error_not_marked_failed :
    ringStatusById (run_deployment gateRaise1 devs5 st4).1 1 = some RingStatus.inProgress ∧
    ¬(ringStatusById (run_deployment gateRaise1 devs5 st4).1 1 = some RingStatus.failed) ∧
    ringStatusById (run_deployment gateRaise1 devs5 st4).1 2 = some RingStatus.notStarted ∧
    ¬(ringStatusById (run_deployment gateRaise1 devs5 st4).1 2 = some RingStatus.stopped) ∧
    ringStatusById (run_deployment gateRaise1 devs5 st4).1 3 = some RingStatus.notStarted ∧
    (run_deployment gateRaise1 devs5 st4).1.deployment_status = DeploymentStatus.failed := by
  decide

/-- **C10 counterexample**: the simulator `RingManager`'s automatic ring
choice ignores the health check — an unhealthy device (battery 10 ≤ 20)
with low resource usage gets risk 95 and CPU ≤ 25 and is assigned the
production ring, refuting "never in a production-equivalent ring". -/
theorem c10_unhealthy_device_assigned_prod :
    unhealthyDevice.is_healthy = false ∧
    determine_optimal_ring unhealthyDevice = PyRingType.prod := by
  have hq : pyInt ((571:ℚ) / 6) = 95 := by
    rw [pyInt_eq_floor (by norm_num)]
    rw [Int.floor_eq_iff]
    norm_num
  have hrisk : calculate_device_risk_score 5 10 10 = 95 := by
    rw [calculate_device_risk_score]
    norm_num [hq]
  constructor
  · simp [unhealthyDevice, PyDeviceStatus.is_healthy]
  · rw [determine_optimal_ring]
    norm_num [unhealthyDevice, hrisk]

theorem find?_ringId_map {f : DeploymentRing → DeploymentRing}
    (hf : ∀ r, (f r).ring_id = r.ring_id) (l : List DeploymentRing) (rid : Nat) :
    (l.map f).find? (fun r => r.ring_id = rid) =
      (l.find? (fun r => r.ring_id = rid)).map f := by
  induction l with
  | nil => rfl
  | cons a tl ih =>
    simp only [List.map_cons, List.find?]
    by_cases h : a.ring_id = rid
    · simp [hf a, h]
    · simp [hf a, h, ih]

theorem find?_ringId_of_nodup {l : List DeploymentRing}
    (hnd : (l.map DeploymentRing.ring_id).Nodup) {r : DeploymentRing} (hr : r ∈ l) :
    l.find? (fun x => x.ring_id = r.ring_id) = some r := by
  induction l with
  | nil => cases hr
  | cons a tl ih =>
    simp only [List.map_cons, List.nodup_cons] at hnd
    rcases List.mem_cons.mp hr with h | h
    · subst h; simp [List.find?]
    · have hne : ¬a.ring_id = r.ring_id := fun he => hnd.1 (by
        rw [he]; exact List.mem_map_of_mem _ h)
      simp [List.find?, hne, ih hnd.2 h]

theorem ringStatusById_congr {st st' : DeployState} (h : st.rings = st'.rings) (rid : Nat) :
    ringStatusById st rid = ringStatusById st' rid := by
  unfold ringStatusById; rw [h]

theorem setRingStatus_ringId (rid : Nat) (s : RingStatus) :
    ∀ r, ((fun r : DeploymentRing =>
      if r.ring_id = rid then { r with status := s } else r) r).ring_id = r.ring_id := by
  intro r; by_cases h : r.ring_id = rid <;> simp [h]

theorem ringStatusById_set_other {st : DeployState} {rid rid' : Nat} (hne : rid ≠ rid')
    (s : RingStatus) : ringStatusById (setRingStatus st rid' s) rid = ringStatusById st rid := by
  unfold ringStatusById setRingStatus
  rw [find?_ringId_map (setRingStatus_ringId rid' s)]
  cases hfind : st.rings.find? (fun r => r.ring_id = rid) with
  | none => rfl
  | some r =>
    have hp := List.find?_some hfind
    have hr : r.ring_id = rid := by simpa using hp
    simp [hr, hne]

theorem ringStatusById_set_self {st : DeployState} {rid : Nat}
    (hnd : (st.rings.map DeploymentRing.ring_id).Nodup)
    {r0 : DeploymentRing} (hr0 : r0 ∈ st.rings) (hid : r0.ring_id = rid) (s : RingStatus) :
    ringStatusById (setRingStatus st rid s) rid = some s := by
  unfold ringStatusById setRingStatus
  rw [find?_ringId_map (setRingStatus_ringId rid s)]
  rw [← hid, find?_ringId_of_nodup hnd hr0]
  simp [hid]

theorem gatingFail_preserves_completed {st : DeployState} {rid rid' : Nat} {reason : String}
    (hne : rid ≠ rid')
    (h : ringStatusById st rid = some RingStatus.completed) :
    ringStatusById (check_gating_factors_update (GateDecision.gateFailed reason) rid' st) rid =
      some RingStatus.completed := by
  unfold ringStatusById check_gating_factors_update
  unfold ringStatusById at h
  have hf : ∀ r : DeploymentRing, ((fun r : DeploymentRing =>
      if r.ring_id = rid' then
        { r with status := RingStatus.failed, failure_reason := some reason }
      else if r.status = RingStatus.notStarted ∨ r.status = RingStatus.inProgress then
        { r with status := RingStatus.stopped }
      else r) r).ring_id = r.ring_id := by
    intro r
    by_cases h1 : r.ring_id = rid'
    · simp [h1]
    · by_cases h2 : r.status = RingStatus.notStarted ∨ r.status = RingStatus.inProgress <;>
        simp [h1, h2]
  rw [find?_ringId_map hf]
  cases hfind : st.rings.find? (fun r => r.ring_id = rid) with
  | none => rw [hfind] at h; cases h
  | some r =>
    rw [hfind] at h
    have hst : r.status = RingStatus.completed := by simpa using h
    have hr : r.ring_id = rid := by simpa using List.find?_some hfind
    have h1 : ¬r.ring_id = rid' := by rw [hr]; exact hne
    simp [h1, hst]

theorem processRings_completed_stable (gate : Nat → GateDecision) (devs : Nat → Nat)
    (fetched : List (Nat × RingStatus)) (st : DeployState) (rid : Nat)
    (hnotin : rid ∉ fetched.map Prod.fst)
    (hst : ringStatusById st rid = some RingStatus.completed) :
    ringStatusById (processRings gate devs fetched st).1 rid = some RingStatus.completed := by
  induction fetched generalizing st with
  | nil => simpa [processRings] using hst
  | cons p rest ih =>
    obtain ⟨rid', s'⟩ := p
    simp only [List.map_cons, List.mem_cons] at hnotin
    push_neg at hnotin
    obtain ⟨hne, hnotin'⟩ := hnotin
    have hne' : rid ≠ rid' := hne
    simp only [processRings]
    by_cases hskip : s' = RingStatus.completed ∨ s' = RingStatus.failed
    · rw [if_pos hskip]
      exact ih st hnotin' hst
    · rw [if_neg hskip]
      by_cases hz : devs rid' = 0
      · rw [if_pos hz]
        exact ih _ hnotin' (by rw [ringStatusById_set_other hne']; exact hst)
      · rw [if_neg hz]
        cases hg : gate rid' with
        | passed =>
          simp only []
          exact ih _ hnotin' (by
            rw [ringStatusById_set_other hne', ringStatusById_set_other hne']; exact hst)
        | gateFailed reason =>
          simp only []
          exact gatingFail_preserves_completed hne'
            (by rw [ringStatusById_set_other hne']; exact hst)
        | raises =>
          simp only []
          rw [ringStatusById_set_other hne']; exact hst

theorem processRings_trace_rids (gate : Nat → GateDecision) (devs : Nat → Nat)
    (fetched : List (Nat × RingStatus)) (st : DeployState) :
    ∀ e ∈ (processRings gate devs fetched st).2.1, e.rid ∈ fetched.map Prod.fst := by
  induction fetched generalizing st with
  | nil => intro e he; simp [processRings] at he
  | cons p rest ih =>
    obtain ⟨rid', s'⟩ := p
    intro e he
    simp only [processRings] at he
    by_cases hskip : s' = RingStatus.completed ∨ s' = RingStatus.failed
    · rw [if_pos hskip] at he
      exact List.mem_cons_of_mem _ (ih st e he)
    · rw [if_neg hskip] at he
      by_cases hz : devs rid' = 0
      · rw [if_pos hz] at he
        rcases List.mem_cons.mp he with h | h
        · subst h; simp [DeployEvent.rid]
        · exact List.mem_cons_of_mem _ (ih _ e h)
      · rw [if_neg hz] at he
        cases hg : gate rid' with
        | passed =>
          rw [hg] at he
          simp only [List.cons_append, List.nil_append] at he
          rcases List.mem_cons.mp he with h | h
          · subst h; simp [DeployEvent.rid]
          rcases List.mem_cons.mp h with h' | h'
          · subst h'; simp [DeployEvent.rid]
          rcases List.mem_cons.mp h' with h'' | h''
          · subst h''; simp [DeployEvent.rid]
          · exact List.mem_cons_of_mem _ (ih _ e h'')
        | gateFailed reason =>
          rw [hg] at he
          rcases List.mem_cons.mp he with h | h
          · subst h; simp [DeployEvent.rid]
          rcases List.mem_cons.mp h with h' | h'
          · subst h'; simp [DeployEvent.rid]
          · simp only [List.mem_singleton] at h'
            subst h'; simp [DeployEvent.rid]
        | raises =>
          rw [hg] at he
          rcases List.mem_cons.mp he with h | h
          · subst h; simp [DeployEvent.rid]
          rcases List.mem_cons.mp h with h' | h'
          · subst h'; simp [DeployEvent.rid]
          · simp only [List.mem_singleton] at h'
            subst h'; simp [DeployEvent.rid]

/-- **C1**: when the gating evaluation for the ring under progression
returns "failed", the run marks that ring Failed with the collaborator's
failure reason, marks every other NotStarted/InProgress ring Stopped,
marks the deployment Failed, terminates the loop (its whole remaining
trace is the single in-progress/dwell/gating-call triple for that ring),
and makes no gating call for any other ring; the final conjunct is the
spec's four-ring example run in full. -/
theorem c1_gating_failure_cascades (gate : Nat → GateDecision) (devs : Nat → Nat)
    (rid : Nat) (s : RingStatus) (rest : List (Nat × RingStatus)) (st : DeployState)
    (reason : String)
    (hs : ¬(s = RingStatus.completed ∨ s = RingStatus.failed))
    (hdev : ¬devs rid = 0)
    (hgate : gate rid = GateDecision.gateFailed reason)
    (hnd : (st.rings.map DeploymentRing.ring_id).Nodup)
    (r0 : DeploymentRing) (hr0 : r0 ∈ st.rings) (hr0id : r0.ring_id = rid) :
    (processRings gate devs ((rid, s) :: rest) st).2.1 =
      [DeployEvent.ringInProgress rid, DeployEvent.dwell rid, DeployEvent.gatingCall rid] ∧
    (processRings gate devs ((rid, s) :: rest) st).2.2 = false ∧
    ringStatusById (processRings gate devs ((rid, s) :: rest) st).1 rid =
      some RingStatus.failed ∧
    ringReasonById (processRings gate devs ((rid, s) :: rest) st).1 rid =
      some (some reason) ∧
    (∀ r ∈ st.rings, ¬r.ring_id = rid →
      (r.status = RingStatus.notStarted ∨ r.status = RingStatus.inProgress) →
      ringStatusById (processRings gate devs ((rid, s) :: rest) st).1 r.ring_id =
        some RingStatus.stopped) ∧
    (processRings gate devs ((rid, s) :: rest) st).1.deployment_status =
      DeploymentStatus.failed ∧
    (∀ rid', ¬rid' = rid →
      DeployEvent.gatingCall rid' ∉ (processRings gate devs ((rid, s) :: rest) st).2.1) ∧
    run_deployment gateFail1 devs5 st4 =
      ({ rings := [⟨0, RingStatus.completed, none⟩,
                   ⟨1, RingStatus.failed, some "cpu exceeds threshold"⟩,
                   ⟨2, RingStatus.stopped, none⟩, ⟨3, RingStatus.stopped, none⟩],
         deployment_status := DeploymentStatus.failed },
       [DeployEvent.ringInProgress 0, DeployEvent.dwell 0, DeployEvent.gatingCall 0,
        DeployEvent.ringInProgress 1, DeployEvent.dwell 1, DeployEvent.gatingCall 1]) := by
  have hstep : processRings gate devs ((rid, s) :: rest) st =
      (check_gating_factors_update (GateDecision.gateFailed reason) rid
         (setRingStatus st rid RingStatus.inProgress),
       [DeployEvent.ringInProgress rid, DeployEvent.dwell rid, DeployEvent.gatingCall rid],
       false) := by
    simp only [processRings]
    rw [if_neg hs, if_neg hdev, hgate]
  rw [hstep]
  have hg : ∀ r : DeploymentRing, ((fun r : DeploymentRing =>
      if r.ring_id = rid then { r with status := RingStatus.inProgress } else r) r).ring_id =
        r.ring_id := setRingStatus_ringId rid RingStatus.inProgress
  have hf : ∀ r : DeploymentRing, ((fun r : DeploymentRing =>
      if r.ring_id = rid then
        { r with status := RingStatus.failed, failure_reason := some reason }
      else if r.status = RingStatus.notStarted ∨ r.status = RingStatus.inProgress then
        { r with status := RingStatus.stopped }
      else r) r).ring_id = r.ring_id := by
    intro r
    by_cases h1 : r.ring_id = rid
    · simp [h1]
    · by_cases h2 : r.status = RingStatus.notStarted ∨ r.status = RingStatus.inProgress <;>
        simp [h1, h2]
  refine ⟨rfl, rfl, ?_, ?_, ?_, rfl, ?_, by decide⟩
  · unfold ringStatusById check_gating_factors_update setRingStatus
    simp only [List.map_map]
    rw [show ((fun r : DeploymentRing =>
        if r.ring_id = rid then
          { r with status := RingStatus.failed, failure_reason := some reason }
        else if r.status = RingStatus.notStarted ∨ r.status = RingStatus.inProgress then
          { r with status := RingStatus.stopped }
        else r) ∘ (fun r : DeploymentRing =>
        if r.ring_id = rid then { r with status := RingStatus.inProgress } else r)) =
        fun r : DeploymentRing =>
          (fun r : DeploymentRing =>
            if r.ring_id = rid then
              { r with status := RingStatus.failed, failure_reason := some reason }
            else if r.status = RingStatus.notStarted ∨ r.status = RingStatus.inProgress then
              { r with status := RingStatus.stopped }
            else r)
          ((fun r : DeploymentRing =>
            if r.ring_id = rid then { r with status := RingStatus.inProgress } else r) r)
      from rfl]
    rw [find?_ringId_map (fun r => by rw [hf, hg])]
    rw [← hr0id, find?_ringId_of_nodup hnd hr0]
    simp [hr0id]
  · unfold ringReasonById check_gating_factors_update setRingStatus
    simp only [List.map_map]
    rw [find?_ringId_map (fun r => by
      show ((fun r : DeploymentRing =>
        if r.ring_id = rid then
          { r with status := RingStatus.failed, failure_reason := some reason }
        else if r.status = RingStatus.notStarted ∨ r.status = RingStatus.inProgress then
          { r with status := RingStatus.stopped }
        else r) ((fun r : DeploymentRing =>
          if r.ring_id = rid then { r with status := RingStatus.inProgress } else r) r)).ring_id
        = r.ring_id
      rw [hf, hg])]
    rw [← hr0id, find?_ringId_of_nodup hnd hr0]
    simp [hr0id]
  · intro r hr hne hstat
    unfold ringStatusById check_gating_factors_update setRingStatus
    simp only [List.map_map]
    rw [find?_ringId_map (fun x => by
      show ((fun r : DeploymentRing =>
        if r.ring_id = rid then
          { r with status := RingStatus.failed, failure_reason := some reason }
        else if r.status = RingStatus.notStarted ∨ r.status = RingStatus.inProgress then
          { r with status := RingStatus.stopped }
        else r) ((fun r : DeploymentRing =>
          if r.ring_id = rid then { r with status := RingStatus.inProgress } else r) x)).ring_id
        = x.ring_id
      rw [hf, hg])]
    rw [find?_ringId_of_nodup hnd hr]
    rcases hstat with h | h <;> simp [Function.comp, hne, h]
  · intro rid' hne
    simp [DeployEvent.gatingCall.injEq, hne]

theorem run_deployment_proj (gate : Nat → GateDecision) (devs : Nat → Nat) (st : DeployState) :
    (run_deployment gate devs st).1.rings =
      (processRings gate devs (st.rings.map fun r => (r.ring_id, r.status)) st).1.rings ∧
    (run_deployment gate devs st).2 =
      (processRings gate devs (st.rings.map fun r => (r.ring_id, r.status)) st).2.1 := by
  unfold run_deployment
  rcases hPR : processRings gate devs (st.rings.map fun r => (r.ring_id, r.status)) st with
    ⟨st1, tr, exc⟩
  simp only [hPR]
  cases exc
  · constructor
    · simp only [Bool.false_eq_true, if_false]
      split <;> rfl
    · simp only [Bool.false_eq_true, if_false]
      split <;> rfl
  · exact ⟨rfl, rfl⟩

/-- Witness for C1: the spec's scenario, entered at ring 1 of the fresh
four-ring deployment with five devices per ring. -/
theorem c1_gating_failure_cascades_witness :
    ringStatusById (processRings gateFail1 devs5
      [(1, RingStatus.notStarted), (2, RingStatus.notStarted), (3, RingStatus.notStarted)]
      st4).1 1 = some RingStatus.failed ∧
    ringStatusById (processRings gateFail1 devs5
      [(1, RingStatus.notStarted), (2, RingStatus.notStarted), (3, RingStatus.notStarted)]
      st4).1 2 = some RingStatus.stopped ∧
    (processRings gateFail1 devs5
      [(1, RingStatus.notStarted), (2, RingStatus.notStarted), (3, RingStatus.notStarted)]
      st4).1.deployment_status = DeploymentStatus.failed := by
  have h := c1_gating_failure_cascades gateFail1 devs5 1 RingStatus.notStarted
    [(2, RingStatus.notStarted), (3, RingStatus.notStarted)] st4 "cpu exceeds threshold"
    (by decide) (by decide) (by decide) (by decide)
    ⟨1, RingStatus.notStarted, none⟩ (by decide) rfl
  refine ⟨h.2.2.1, ?_, h.2.2.2.2.2.1⟩
  exact h.2.2.2.2.1 ⟨2, RingStatus.notStarted, none⟩ (by decide) (by decide) (by decide)

/-- **C3 (amended)**: when the gating call raises for the ring under
progression, the scheduler's `except Exception` handler terminates the
loop (no gating call for any other ring is made) and marks the deployment
Failed, but the ring under evaluation keeps its just-set `In Progress`
status (it is not marked Failed) and the other rings keep their previous
statuses (no ring is marked Stopped). -/
theorem c3_gating_error_marks_only_deployment (gate : Nat → GateDecision) (devs : Nat → Nat)
    (rid : Nat) (s : RingStatus) (rest : List (Nat × RingStatus)) (st : DeployState)
    (hs : ¬(s = RingStatus.completed ∨ s = RingStatus.failed))
    (hdev : ¬devs rid = 0)
    (hgate : gate rid = GateDecision.raises)
    (hnd : (st.rings.map DeploymentRing.ring_id).Nodup)
    (r0 : DeploymentRing) (hr0 : r0 ∈ st.rings) (hr0id : r0.ring_id = rid) :
    (processRings gate devs ((rid, s) :: rest) st).2.1 =
      [DeployEvent.ringInProgress rid, DeployEvent.dwell rid, DeployEvent.gatingCall rid] ∧
    (processRings gate devs ((rid, s) :: rest) st).2.2 = true ∧
    ringStatusById (processRings gate devs ((rid, s) :: rest) st).1 rid =
      some RingStatus.inProgress ∧
    (∀ r ∈ st.rings, ¬r.ring_id = rid →
      ringStatusById (processRings gate devs ((rid, s) :: rest) st).1 r.ring_id =
        some r.status) ∧
    (∀ rid', ¬rid' = rid →
      DeployEvent.gatingCall rid' ∉ (processRings gate devs ((rid, s) :: rest) st).2.1) ∧
    (run_deployment gateRaise1 devs5 st4).1.deployment_status = DeploymentStatus.failed := by
  have hstep : processRings gate devs ((rid, s) :: rest) st =
      (setRingStatus st rid RingStatus.inProgress,
       [DeployEvent.ringInProgress rid, DeployEvent.dwell rid, DeployEvent.gatingCall rid],
       true) := by
    simp only [processRings]
    rw [if_neg hs, if_neg hdev, hgate]
  rw [hstep]
  refine ⟨rfl, rfl, ?_, ?_, ?_, by decide⟩
  · exact ringStatusById_set_self hnd hr0 hr0id RingStatus.inProgress
  · intro r hr hne
    rw [ringStatusById_set_other (fun he => hne he)]
    unfold ringStatusById
    rw [find?_ringId_of_nodup hnd hr]
    rfl
  · intro rid' hne
    simp [DeployEvent.gatingCall.injEq, hne]

/-- Witness for C3's amended statement: the raising collaborator at ring 1
of the fresh four-ring deployment. -/
theorem c3_gating_error_marks_only_deployment_witness :
    ringStatusById (processRings gateRaise1 devs5
      [(1, RingStatus.notStarted), (2, RingStatus.notStarted), (3, RingStatus.notStarted)]
      st4).1 1 = some RingStatus.inProgress ∧
    ringStatusById (processRings gateRaise1 devs5
      [(1, RingStatus.notStarted), (2, RingStatus.notStarted), (3, RingStatus.notStarted)]
      st4).1 2 = some RingStatus.notStarted ∧
    (processRings gateRaise1 devs5
      [(1, RingStatus.notStarted), (2, RingStatus.notStarted), (3, RingStatus.notStarted)]
      st4).2.2 = true := by
  have h := c3_gating_error_marks_only_deployment gateRaise1 devs5 1 RingStatus.notStarted
    [(2, RingStatus.notStarted), (3, RingStatus.notStarted)] st4
    (by decide) (by decide) (by decide) (by decide)
    ⟨1, RingStatus.notStarted, none⟩ (by decide) rfl
  refine ⟨h.2.2.1, ?_, h.2.1⟩
  exact h.2.2.2.1 ⟨2, RingStatus.notStarted, none⟩ (by decide) (by decide)

/-- **C7**: a ring with zero assigned devices is marked Completed
immediately — the run's trace shows no dwell and no gating call for it —
and progression continues with the next (non-empty, NotStarted) ring,
whose evaluation happens only after the in-progress marking and the dwell
wait: the trace begins `ringCompleted r0, ringInProgress r1, dwell r1,
gatingCall r1`. -/
theorem c7_empty_ring_completes_immediately (gate : Nat → GateDecision) (devs : Nat → Nat)
    (st : DeployState) (r0 r1 : DeploymentRing) (rest : List DeploymentRing)
    (hr : st.rings = r0 :: r1 :: rest)
    (hnd : (st.rings.map DeploymentRing.ring_id).Nodup)
    (hs0 : ¬(r0.status = RingStatus.completed ∨ r0.status = RingStatus.failed))
    (hdev0 : devs r0.ring_id = 0)
    (hs1 : ¬(r1.status = RingStatus.completed ∨ r1.status = RingStatus.failed))
    (hdev1 : ¬devs r1.ring_id = 0) :
    (∃ tr', (run_deployment gate devs st).2 =
      DeployEvent.ringCompleted r0.ring_id :: DeployEvent.ringInProgress r1.ring_id ::
      DeployEvent.dwell r1.ring_id :: DeployEvent.gatingCall r1.ring_id :: tr') ∧
    ringStatusById (run_deployment gate devs st).1 r0.ring_id = some RingStatus.completed ∧
    DeployEvent.dwell r0.ring_id ∉ (run_deployment gate devs st).2 ∧
    DeployEvent.gatingCall r0.ring_id ∉ (run_deployment gate devs st).2 := by
  obtain ⟨hrings, htrace⟩ := run_deployment_proj gate devs st
  set tail1 : List (Nat × RingStatus) :=
    (r1.ring_id, r1.status) :: rest.map (fun r => (r.ring_id, r.status)) with htail1
  have hfetch : st.rings.map (fun r => (r.ring_id, r.status)) =
      (r0.ring_id, r0.status) :: tail1 := by
    rw [hr]; rfl
  set st0 := setRingStatus st r0.ring_id RingStatus.completed with hst0
  have h1 : processRings gate devs ((r0.ring_id, r0.status) :: tail1) st =
      ((processRings gate devs tail1 st0).1,
       DeployEvent.ringCompleted r0.ring_id :: (processRings gate devs tail1 st0).2.1,
       (processRings gate devs tail1 st0).2.2) := by
    simp only [processRings]
    rw [if_neg hs0, if_pos hdev0]
  have hnd' : (r0.ring_id :: r1.ring_id :: rest.map DeploymentRing.ring_id).Nodup := by
    have := hnd; rw [hr] at this; simpa using this
  have hnotin : r0.ring_id ∉ tail1.map Prod.fst := by
    have h := (List.nodup_cons.mp hnd').1
    simpa [htail1, List.map_map, Function.comp] using h
  have hmem0 : r0 ∈ st.rings := by rw [hr]; exact List.mem_cons_self _ _
  have hself : ringStatusById st0 r0.ring_id = some RingStatus.completed :=
    ringStatusById_set_self hnd hmem0 rfl RingStatus.completed
  have hstable : ringStatusById (processRings gate devs tail1 st0).1 r0.ring_id =
      some RingStatus.completed :=
    processRings_completed_stable gate devs tail1 st0 r0.ring_id hnotin hself
  have h2 : ∃ tr', (processRings gate devs tail1 st0).2.1 =
      DeployEvent.ringInProgress r1.ring_id :: DeployEvent.dwell r1.ring_id ::
      DeployEvent.gatingCall r1.ring_id :: tr' := by
    rw [htail1]
    simp only [processRings]
    rw [if_neg hs1, if_neg hdev1]
    cases hg : gate r1.ring_id with
    | passed => exact ⟨_, rfl⟩
    | gateFailed reason => exact ⟨[], rfl⟩
    | raises => exact ⟨[], rfl⟩
  obtain ⟨tr', htr'⟩ := h2
  refine ⟨⟨tr', ?_⟩, ?_, ?_, ?_⟩
  · rw [htrace, hfetch, h1]
    simp only []
    rw [htr']
  · have : ringStatusById (run_deployment gate devs st).1 r0.ring_id =
        ringStatusById (processRings gate devs (st.rings.map fun r => (r.ring_id, r.status)) st).1
          r0.ring_id := ringStatusById_congr hrings _
    rw [this, hfetch, h1]
    exact hstable
  · rw [htrace, hfetch, h1]
    intro hmem
    simp only [List.mem_cons] at hmem
    rcases hmem with h | h
    · cases h
    · have := processRings_trace_rids gate devs tail1 st0 _ h
      simp only [DeployEvent.rid] at this
      exact hnotin this
  · rw [htrace, hfetch, h1]
    intro hmem
    simp only [List.mem_cons] at hmem
    rcases hmem with h | h
    · cases h
    · have := processRings_trace_rids gate devs tail1 st0 _ h
      simp only [DeployEvent.rid] at this
      exact hnotin this

/-- Witness for C7: ring 0 empty, rings 1-3 populated, all gating passes. -/
theorem c7_empty_ring_completes_immediately_witness :
    (∃ tr', (run_deployment (fun _ => GateDecision.passed) devs01 st4).2 =
      DeployEvent.ringCompleted 0 :: DeployEvent.ringInProgress 1 ::
      DeployEvent.dwell 1 :: DeployEvent.gatingCall 1 :: tr') ∧
    ringStatusById (run_deployment (fun _ => GateDecision.passed) devs01 st4).1 0 =
      some RingStatus.completed ∧
    DeployEvent.dwell 0 ∉ (run_deployment (fun _ => GateDecision.passed) devs01 st4).2 := by
  have h := c7_empty_ring_completes_immediately (fun _ => GateDecision.passed) devs01 st4
    ⟨0, RingStatus.notStarted, none⟩ ⟨1, RingStatus.notStarted, none⟩
    [⟨2, RingStatus.notStarted, none⟩, ⟨3, RingStatus.notStarted, none⟩]
    rfl (by decide) (by decide) (by decide) (by decide) (by decide)
  exact ⟨h.1, h.2.1, h.2.2.1⟩


/-- **C10 (amended)**: in the orchestrator's `_auto_assign_ring`, a device
whose health check is false is assigned `random.choice([CANARY, DEV])` — a
uniform draw over exactly those two rings: every draw lands in canary or
dev (never prod, never stage) and both outcomes occur. -/
theorem c10_auto_assign_unhealthy (st : RingState) (sid : String) (d : PyDeviceStatus)
    (i : Fin 2)
    (hd : lookupA st.device_statuses sid = some d)
    (hh : d.is_healthy = false) :
    (autoAssignChoice st d i = PyRingType.canary ∨
      autoAssignChoice st d i = PyRingType.dev) ∧
    ¬autoAssignChoice st d i = PyRingType.prod ∧
    ¬autoAssignChoice st d i = PyRingType.stage ∧
    (∃ j : Fin 2, autoAssignChoice st d j = PyRingType.canary) ∧
    (∃ j : Fin 2, autoAssignChoice st d j = PyRingType.dev) ∧
    auto_assign_ring st sid i = assign_slave_to_ring st sid (choiceCanaryDev i) := by
  have hch : ∀ j : Fin 2, autoAssignChoice st d j = choiceCanaryDev j := by
    intro j
    unfold autoAssignChoice
    rw [hh]
    simp
  have hcd : ∀ j : Fin 2, choiceCanaryDev j = PyRingType.canary ∨
      choiceCanaryDev j = PyRingType.dev := by
    intro j
    fin_cases j
    · exact Or.inl rfl
    · exact Or.inr rfl
  refine ⟨?_, ?_, ?_, ⟨0, ?_⟩, ⟨1, ?_⟩, ?_⟩
  · rw [hch i]; exact hcd i
  · rw [hch i]
    rcases hcd i with h | h <;> rw [h] <;> intro hcon <;> cases hcon
  · rw [hch i]
    rcases hcd i with h | h <;> rw [h] <;> intro hcon <;> cases hcon
  · rw [hch 0]; rfl
  · rw [hch 1]; rfl
  · unfold auto_assign_ring
    rw [hd]
    simp [hh]

/-- Witness for C10's amended statement at the concrete unhealthy device. -/
theorem c10_auto_assign_unhealthy_witness :
    (autoAssignChoice ringSt0 unhealthyDevice 0 = PyRingType.canary ∨
      autoAssignChoice ringSt0 unhealthyDevice 0 = PyRingType.dev) ∧
    ¬autoAssignChoice ringSt0 unhealthyDevice 0 = PyRingType.prod ∧
    auto_assign_ring ringSt0 "s1" 0 =
      assign_slave_to_ring ringSt0 "s1" (choiceCanaryDev 0) := by
  have h := c10_auto_assign_unhealthy ringSt0 "s1" unhealthyDevice 0 rfl rfl
  exact ⟨h.1, h.2.1, h.2.2.2.2.2⟩

theorem mem_insertDescBy {key : String → Int} {x y : String} {l : List String} :
    y ∈ insertDescBy key x l ↔ y = x ∨ y ∈ l := by
  induction l with
  | nil => simp [insertDescBy]
  | cons a tl ih =>
    simp only [insertDescBy]
    split
    · simp [List.mem_cons]
    · simp only [List.mem_cons, ih]
      tauto

theorem pairwise_insertDescBy (key : String → Int) (x : String) {l : List String}
    (h : List.Pairwise (fun a b => key b ≤ key a) l) :
    List.Pairwise (fun a b => key b ≤ key a) (insertDescBy key x l) := by
  induction l with
  | nil => simp [insertDescBy]
  | cons a tl ih =>
    obtain ⟨ha, htl⟩ := List.pairwise_cons.mp h
    simp only [insertDescBy]
    split
    · rename_i hle
      refine List.pairwise_cons.mpr ⟨?_, h⟩
      intro b hb
      rcases List.mem_cons.mp hb with rfl | hb
      · exact hle
      · exact (ha b hb).trans hle
    · rename_i hgt
      refine List.pairwise_cons.mpr ⟨?_, ih htl⟩
      intro b hb
      rcases mem_insertDescBy.mp hb with rfl | hb
      · exact le_of_not_le hgt
      · exact ha b hb

theorem sortDescBy_pairwise (key : String → Int) (l : List String) :
    List.Pairwise (fun a b => key b ≤ key a) (sortDescBy key l) := by
  induction l with
  | nil => exact List.Pairwise.nil
  | cons a tl ih => exact pairwise_insertDescBy key a ih

theorem filter_insertDescBy_eqkey (key : String → Int) (x : String) (l : List String) :
    (insertDescBy key x l).filter (fun y => key y = key x) =
      x :: l.filter (fun y => key y = key x) := by
  induction l with
  | nil => simp [insertDescBy]
  | cons a tl ih =>
    simp only [insertDescBy]
    split
    · simp
    · rename_i hgt
      have hne : ¬key a = key x := fun he => hgt (le_of_eq he)
      simp [List.filter_cons, hne, ih]

theorem filter_insertDescBy_nekey (key : String → Int) (x : String) (l : List String)
    (v : Int) (hne : ¬key x = v) :
    (insertDescBy key x l).filter (fun y => key y = v) =
      l.filter (fun y => key y = v) := by
  induction l with
  | nil => simp [insertDescBy, hne]
  | cons a tl ih =>
    simp only [insertDescBy]
    split
    · simp [List.filter_cons, hne]
    · simp only [List.filter_cons, ih]

theorem sortDescBy_filter (key : String → Int) (l : List String) (v : Int) :
    (sortDescBy key l).filter (fun y => key y = v) = l.filter (fun y => key y = v) := by
  induction l with
  | nil => rfl
  | cons a tl ih =>
    simp only [sortDescBy]
    by_cases hv : key a = v
    · subst hv
      rw [filter_insertDescBy_eqkey, ih]
      simp [List.filter_cons]
    · rw [filter_insertDescBy_nekey key a _ v hv, ih]
      simp [List.filter_cons, hv]

/-- **C6**: `submit_task` creates a `Pending` task; the queue is kept
sorted by priority descending (`sortDescBy` output is pairwise
descending) with ties broken by submission order (the sort is stable: it
preserves the relative order — the `filter` — of every priority class);
assignment pops from the front of that order; and for three tasks
submitted with priorities [5, 1, 5] to a pool of one idle agent, the
`TaskAssignment` sends happen in the order first-5, second-5, then 1. -/
theorem c6_priority_queue_stable_fifo :
    (∀ (task_id task_type parameters : String) (priority : Int) (now : Nat),
      (newTask task_id task_type parameters priority now).status = PyTaskStatus.pending) ∧
    (∀ (key : String → Int) (l : List String),
      List.Pairwise (fun a b => key b ≤ key a) (sortDescBy key l)) ∧
    (∀ (key : String → Int) (l : List String) (v : Int),
      (sortDescBy key l).filter (fun y => key y = v) = l.filter (fun y => key y = v)) ∧
    (∀ (st : MasterState) (task_id task_type parameters : String) (priority : Int) (now : Nat),
      (submit_task st task_id task_type parameters priority now) =
        assign_tasks
          { st with
            tasks := insertA st.tasks task_id (newTask task_id task_type parameters priority now),
            task_queue := sortDescBy
              (priorityOf (insertA st.tasks task_id (newTask task_id task_type parameters priority now)))
              (st.task_queue ++ [task_id]) } now) ∧
    (∀ (st : MasterState) (now : Nat) (tid : String) (qrest : List String)
      (sid : String) (idleRest : List String),
      st.task_queue = tid :: qrest →
      (st.slaves.filter fun p => p.2.status = SlaveStatus.idle).map Prod.fst =
        sid :: idleRest →
      ((assign_tasks st now).2).head? = some (tid, sid)) ∧
    step1.2 ++ step2.2 ++ step3.2 ++ step4.2 ++ step5.2 =
      [("T1", "s1"), ("T3", "s1"), ("T2", "s1")] := by
  refine ⟨fun _ _ _ _ _ => rfl, sortDescBy_pairwise, sortDescBy_filter,
    fun _ _ _ _ _ _ => rfl, ?_, by decide⟩
  intro st now tid qrest sid idleRest hq hidle
  unfold assign_tasks
  rw [hq, hidle]
  simp only [List.isEmpty_cons, Bool.false_eq_true, if_false]
  rw [assignLoop]
  rw [hq]
  rfl

/-- Witness for C6 at the one-idle-agent, one-queued-task state `msW`. -/
theorem c6_priority_queue_stable_fifo_witness :
    (newTask "T1" "test" "" 5 0).status = PyTaskStatus.pending ∧
    List.Pairwise (fun a b => priorityOf msW.tasks b ≤ priorityOf msW.tasks a)
      (sortDescBy (priorityOf msW.tasks) ["T1"]) ∧
    ((assign_tasks msW 7).2).head? = some ("T1", "s1") := by
  obtain ⟨h1, h2, _, _, h5, _⟩ := c6_priority_queue_stable_fifo
  exact ⟨h1 "T1" "test" "" 5 0, h2 (priorityOf msW.tasks) ["T1"],
    h5 msW 7 "T1" [] "s1" [] rfl rfl⟩


theorem lookupA_updateA_self {β : Type} (m : List (String × β)) (k : String) (f : β → β) :
    lookupA (updateA m k f) k = (lookupA m k).map f := by
  induction m with
  | nil => rfl
  | cons p tl ih =>
    by_cases h : p.1 = k
    · simp [lookupA, updateA, List.find?, h]
    · simp only [lookupA, updateA, List.map_cons] at *
      simp only [List.find?, h, if_neg h]
      simpa [h] using ih

theorem lookupA_updateA_other {β : Type} (m : List (String × β)) (k k' : String)
    (f : β → β) (hne : ¬k' = k) :
    lookupA (updateA m k f) k' = lookupA m k' := by
  induction m with
  | nil => rfl
  | cons p tl ih =>
    by_cases h : p.1 = k
    · have h2 : ¬p.1 = k' := by rw [h]; exact fun he => hne he.symm
      simp only [updateA, List.map_cons, lookupA, List.find?, if_pos h] at *
      simp only [h2, if_neg h2]
      simpa using ih
    · simp only [updateA, List.map_cons, lookupA, List.find?, if_neg h] at *
      by_cases h2 : p.1 = k'
      · simp [h2]
      · simp only [h2, if_neg h2]
        simpa using ih

theorem lookupA_removeA {β : Type} (m : List (String × β)) (k k' : String) :
    lookupA (removeA m k) k' = if k' = k then none else lookupA m k' := by
  induction m with
  | nil => simp [removeA, lookupA]
  | cons p tl ih =>
    by_cases h : p.1 = k
    · have hdrop : removeA (p :: tl) k = removeA tl k := by
        simp [removeA, List.filter_cons, h]
      rw [hdrop, ih]
      by_cases h2 : k' = k
      · simp [h2]
      · have h3 : ¬p.1 = k' := by rw [h]; exact fun he => h2 he.symm
        simp [lookupA, List.find?, h3, h2]
    · have hkeep : removeA (p :: tl) k = p :: removeA tl k := by
        simp [removeA, List.filter_cons, h]
      rw [hkeep]
      by_cases h3 : p.1 = k'
      · have h2 : ¬k' = k := fun he => h (h3.trans he)
        simp [lookupA, List.find?, h3, h2]
      · have hskip : lookupA (p :: removeA tl k) k' = lookupA (removeA tl k) k' := by
          simp [lookupA, List.find?, h3]
        rw [hskip, ih]
        by_cases h2 : k' = k
        · simp [h2]
        · simp [h2, lookupA, List.find?, h3]

theorem lookupA_isSome_updateA {β : Type} (m : List (String × β)) (k k' : String)
    (f : β → β) : (lookupA (updateA m k f) k').isSome = (lookupA m k').isSome := by
  by_cases h : k' = k
  · subst h
    rw [lookupA_updateA_self]
    cases lookupA m k' <;> rfl
  · rw [lookupA_updateA_other m k k' f h]


theorem requeueTask_slaves (acc : MasterState) (tid : String) :
    (requeueTask acc tid).slaves = acc.slaves := by
  unfold requeueTask
  split <;> rfl

theorem requeueTask_queue_mono (acc : MasterState) (tid x : String)
    (h : x ∈ acc.task_queue) : x ∈ (requeueTask acc tid).task_queue := by
  unfold requeueTask
  split
  · exact List.mem_append_left _ h
  · exact h

theorem requeueTask_tasks_other (acc : MasterState) (tid x : String) (hne : ¬x = tid) :
    lookupA (requeueTask acc tid).tasks x = lookupA acc.tasks x := by
  by_cases h : (lookupA acc.tasks tid).isSome = true
  · simp only [requeueTask, if_pos h]
    exact lookupA_updateA_other acc.tasks tid x
      (fun t => { t with status := PyTaskStatus.pending, assigned_to := none }) hne
  · simp only [requeueTask, if_neg h]

theorem requeueTask_tasks_isSome (acc : MasterState) (tid x : String) :
    (lookupA (requeueTask acc tid).tasks x).isSome = (lookupA acc.tasks x).isSome := by
  by_cases h : (lookupA acc.tasks tid).isSome = true
  · simp only [requeueTask, if_pos h]
    exact lookupA_isSome_updateA acc.tasks tid x
      (fun t => { t with status := PyTaskStatus.pending, assigned_to := none })
  · simp only [requeueTask, if_neg h]

theorem foldl_requeue_slaves (L : List String) (st : MasterState) :
    (L.foldl requeueTask st).slaves = st.slaves := by
  induction L generalizing st with
  | nil => rfl
  | cons x L' ih => rw [List.foldl_cons, ih, requeueTask_slaves]

theorem foldl_requeue_queue_mono (L : List String) (st : MasterState) (x : String)
    (h : x ∈ st.task_queue) : x ∈ (L.foldl requeueTask st).task_queue := by
  induction L generalizing st with
  | nil => exact h
  | cons y L' ih => exact ih _ (requeueTask_queue_mono st y x h)

theorem foldl_requeue_tasks_notin (L : List String) (st : MasterState) (x : String)
    (hx : x ∉ L) : lookupA (L.foldl requeueTask st).tasks x = lookupA st.tasks x := by
  induction L generalizing st with
  | nil => rfl
  | cons y L' ih =>
    have hne : ¬x = y := fun he => hx (he ▸ List.mem_cons_self y L')
    have hx' : x ∉ L' := fun hmem => hx (List.mem_cons_of_mem _ hmem)
    rw [List.foldl_cons, ih _ hx', requeueTask_tasks_other st y x hne]

theorem foldl_requeue_tasks_isSome (L : List String) (st : MasterState) (x : String) :
    (lookupA (L.foldl requeueTask st).tasks x).isSome = (lookupA st.tasks x).isSome := by
  induction L generalizing st with
  | nil => rfl
  | cons y L' ih => rw [List.foldl_cons, ih, requeueTask_tasks_isSome]

theorem foldl_requeue_requeues (L : List String) (st : MasterState) (tid : String)
    (hmem : tid ∈ L) (hsome : (lookupA st.tasks tid).isSome = true) :
    ∃ t', lookupA (L.foldl requeueTask st).tasks tid = some t' ∧
      t'.status = PyTaskStatus.pending ∧ t'.assigned_to = none ∧
      tid ∈ (L.foldl requeueTask st).task_queue := by
  induction L generalizing st with
  | nil => cases hmem
  | cons y L' ih =>
    rw [List.foldl_cons]
    by_cases hy : tid = y
    · subst hy
      obtain ⟨t, ht⟩ := Option.isSome_iff_exists.mp hsome
      have hstep : lookupA (requeueTask st tid).tasks tid =
          some { t with status := PyTaskStatus.pending, assigned_to := none } := by
        unfold requeueTask
        rw [if_pos hsome]
        simp only []
        rw [lookupA_updateA_self, ht]
        rfl
      have hq : tid ∈ (requeueTask st tid).task_queue := by
        unfold requeueTask
        rw [if_pos hsome]
        exact List.mem_append_right _ (List.mem_singleton.mpr rfl)
      by_cases hL' : tid ∈ L'
      · exact ih _ hL' (by rw [requeueTask_tasks_isSome]; exact hsome)
      · refine ⟨{ t with status := PyTaskStatus.pending, assigned_to := none },
          ?_, rfl, rfl, ?_⟩
        · rw [foldl_requeue_tasks_notin L' _ tid hL']
          exact hstep
        · exact foldl_requeue_queue_mono L' _ tid hq
    · have hL' : tid ∈ L' := by
        rcases List.mem_cons.mp hmem with h | h
        · exact absurd h hy
        · exact h
      have hne : ¬tid = y := hy
      have hsome' : (lookupA (requeueTask st y).tasks tid).isSome = true := by
        rw [requeueTask_tasks_isSome]; exact hsome
      exact ih _ hL' hsome'

theorem lookupA_mem {β : Type} {m : List (String × β)} {k : String} {v : β}
    (h : lookupA m k = some v) : (k, v) ∈ m := by
  unfold lookupA at h
  cases hfind : m.find? (fun p => p.1 = k) with
  | none => rw [hfind] at h; cases h
  | some p =>
    rw [hfind] at h
    have hp : p.1 = k := by simpa using List.find?_some hfind
    have hv : p.2 = v := by simpa using h
    have : p = (k, v) := Prod.ext hp hv
    exact this ▸ List.mem_of_find?_eq_some hfind

theorem remove_slave_of_absent (st : MasterState) (x : String)
    (h : lookupA st.slaves x = none) : remove_slave st x = st := by
  unfold remove_slave
  rw [h]

theorem remove_slave_slaves_self (st : MasterState) (x : String) :
    lookupA (remove_slave st x).slaves x = none := by
  unfold remove_slave
  cases h : lookupA st.slaves x with
  | none => exact h
  | some info =>
    simp only []
    rw [lookupA_removeA]
    simp

theorem remove_slave_slaves_other (st : MasterState) (x z : String) (hne : ¬z = x) :
    lookupA (remove_slave st x).slaves z = lookupA st.slaves z := by
  unfold remove_slave
  cases h : lookupA st.slaves x with
  | none => rfl
  | some info =>
    simp only []
    rw [lookupA_removeA, if_neg hne, foldl_requeue_slaves]

theorem remove_slave_tasks_untouched (st : MasterState) (x tid : String)
    (h : ∀ info, lookupA st.slaves x = some info → tid ∉ info.assigned_tasks) :
    lookupA (remove_slave st x).tasks tid = lookupA st.tasks tid := by
  unfold remove_slave
  cases hx : lookupA st.slaves x with
  | none => rfl
  | some info =>
    simp only []
    exact foldl_requeue_tasks_notin _ _ _ (h info hx)

theorem remove_slave_queue_mono (st : MasterState) (x tid : String)
    (h : tid ∈ st.task_queue) : tid ∈ (remove_slave st x).task_queue := by
  unfold remove_slave
  cases hx : lookupA st.slaves x with
  | none => exact h
  | some info =>
    simp only []
    exact foldl_requeue_queue_mono _ _ _ h

theorem remove_slave_requeues (st : MasterState) (x tid : String) (info : SlaveInfo)
    (hx : lookupA st.slaves x = some info) (hmem : tid ∈ info.assigned_tasks)
    (hsome : (lookupA st.tasks tid).isSome = true) :
    ∃ t', lookupA (remove_slave st x).tasks tid = some t' ∧
      t'.status = PyTaskStatus.pending ∧ t'.assigned_to = none ∧
      tid ∈ (remove_slave st x).task_queue := by
  unfold remove_slave
  rw [hx]
  simp only []
  exact foldl_requeue_requeues info.assigned_tasks st tid hmem hsome

theorem foldl_remove_slaves_notin (D : List String) (st : MasterState) (z : String)
    (hz : z ∉ D) :
    lookupA ((D.foldl remove_slave st)).slaves z = lookupA st.slaves z := by
  induction D generalizing st with
  | nil => rfl
  | cons y D' ih =>
    have hzy : ¬z = y := fun he => hz (he ▸ List.mem_cons_self y D')
    have hz' : z ∉ D' := fun hmem => hz (List.mem_cons_of_mem _ hmem)
    rw [List.foldl_cons, ih _ hz', remove_slave_slaves_other st y z hzy]

theorem foldl_remove_slaves_none (D : List String) (st : MasterState) (z : String)
    (hz : lookupA st.slaves z = none) :
    lookupA ((D.foldl remove_slave st)).slaves z = none := by
  induction D generalizing st with
  | nil => exact hz
  | cons y D' ih =>
    rw [List.foldl_cons]
    refine ih _ ?_
    by_cases hzy : z = y
    · subst hzy; exact remove_slave_slaves_self st z
    · rw [remove_slave_slaves_other st y z hzy]; exact hz

theorem foldl_remove_untouched (D : List String) (st : MasterState) (tid : String)
    (h : ∀ y ∈ D, ∀ infoY, lookupA st.slaves y = some infoY →
      tid ∉ infoY.assigned_tasks) :
    lookupA ((D.foldl remove_slave st)).tasks tid = lookupA st.tasks tid ∧
    (tid ∈ st.task_queue → tid ∈ ((D.foldl remove_slave st)).task_queue) := by
  induction D generalizing st with
  | nil => exact ⟨rfl, fun hq => hq⟩
  | cons y D' ih =>
    rw [List.foldl_cons]
    have htransfer : ∀ y' ∈ D', ∀ infoY,
        lookupA (remove_slave st y).slaves y' = some infoY →
        tid ∉ infoY.assigned_tasks := by
      intro y' hy' infoY hlook
      by_cases hyy : y' = y
      · subst hyy
        rw [remove_slave_slaves_self] at hlook
        cases hlook
      · rw [remove_slave_slaves_other st y y' hyy] at hlook
        exact h y' (List.mem_cons_of_mem _ hy') infoY hlook
    obtain ⟨ht, hq⟩ := ih _ htransfer
    refine ⟨?_, ?_⟩
    · rw [ht]
      exact remove_slave_tasks_untouched st y tid
        (fun info hinfo => h y (List.mem_cons_self y D') info hinfo)
    · exact fun hmem => hq (remove_slave_queue_mono st y tid hmem)

/-- **C4**: at a heartbeat-monitor scan, every registered agent whose last
heartbeat is older than `slave_timeout` is removed from the live agent
set, and every task that was InProgress and assigned to it becomes
Pending with `assigned_to` cleared and its id back on the pending queue.
`TasksConsistent` is the bookkeeping invariant `_assign_tasks` and
`_handle_task_result` maintain between the task map and the slaves'
`assigned_tasks` lists. -/
theorem c4_dead_agent_evicted_tasks_requeued (st : MasterState) (now timeout : Nat)
    (sid : String) (info : SlaveInfo)
    (hnd : (st.slaves.map Prod.fst).Nodup)
    (hcons : TasksConsistent st)
    (hsid : lookupA st.slaves sid = some info)
    (hdead : timeout < now - info.last_heartbeat) :
    lookupA (heartbeat_scan st now timeout).slaves sid = none ∧
    (∀ tid t, lookupA st.tasks tid = some t → t.status = PyTaskStatus.inProgress →
      t.assigned_to = some sid →
      ∃ t', lookupA (heartbeat_scan st now timeout).tasks tid = some t' ∧
        t'.status = PyTaskStatus.pending ∧ t'.assigned_to = none ∧
        tid ∈ (heartbeat_scan st now timeout).task_queue) := by
  have hscan : heartbeat_scan st now timeout =
      ((st.slaves.filter fun p => timeout < now - p.2.last_heartbeat).map Prod.fst).foldl
        remove_slave st := rfl
  have hpair : (sid, info) ∈ st.slaves := lookupA_mem hsid
  have hsidmem : sid ∈
      (st.slaves.filter fun p => timeout < now - p.2.last_heartbeat).map Prod.fst := by
    exact List.mem_map_of_mem Prod.fst (List.mem_filter.mpr ⟨hpair, by simpa using hdead⟩)
  have hdeadnd :
      ((st.slaves.filter fun p => timeout < now - p.2.last_heartbeat).map Prod.fst).Nodup := by
    exact hnd.sublist (List.Sublist.map Prod.fst (List.filter_sublist _))
  obtain ⟨D1, D2, hsplit⟩ := List.append_of_mem hsidmem
  rw [hsplit] at hdeadnd
  have hdisj : D1.Disjoint (sid :: D2) := List.disjoint_of_nodup_append hdeadnd
  have hsidD1 : sid ∉ D1 := fun hin => hdisj hin (List.mem_cons_self _ _)
  have hsidD2 : sid ∉ D2 :=
    (List.nodup_cons.mp (hdeadnd.of_append_right)).1
  rw [hscan, hsplit, List.foldl_append, List.foldl_cons]
  have h1 : lookupA (D1.foldl remove_slave st).slaves sid = some info := by
    rw [foldl_remove_slaves_notin D1 st sid hsidD1]; exact hsid
  constructor
  · exact foldl_remove_slaves_none D2 _ sid
      (remove_slave_slaves_self (D1.foldl remove_slave st) sid)
  · intro tid t ht hstat ha
    have hmem_info : tid ∈ info.assigned_tasks :=
      (hcons tid t ht hstat sid ha sid info hsid).mpr rfl
    have hypD1 : ∀ y ∈ D1, ∀ infoY, lookupA st.slaves y = some infoY →
        tid ∉ infoY.assigned_tasks := by
      intro y hy infoY hlook hin
      have hysid : y = sid := (hcons tid t ht hstat sid ha y infoY hlook).mp hin
      exact hsidD1 (hysid ▸ hy)
    obtain ⟨ht1, _⟩ := foldl_remove_untouched D1 st tid hypD1
    have hsome1 : (lookupA (D1.foldl remove_slave st).tasks tid).isSome = true := by
      rw [ht1, ht]; rfl
    obtain ⟨t', ht2, hp, hass, hq2⟩ :=
      remove_slave_requeues (D1.foldl remove_slave st) sid tid info h1 hmem_info hsome1
    have hypD2 : ∀ y ∈ D2, ∀ infoY,
        lookupA (remove_slave (D1.foldl remove_slave st) sid).slaves y = some infoY →
        tid ∉ infoY.assigned_tasks := by
      intro y hy infoY hlook hin
      have hynsid : ¬y = sid := fun he => hsidD2 (he ▸ hy)
      have hynD1 : y ∉ D1 := fun hin1 => hdisj hin1 (List.mem_cons_of_mem _ hy)
      rw [remove_slave_slaves_other _ sid y hynsid,
        foldl_remove_slaves_notin D1 st y hynD1] at hlook
      exact hynsid ((hcons tid t ht hstat sid ha y infoY hlook).mp hin)
    obtain ⟨ht3, hq3⟩ := foldl_remove_untouched D2 _ tid hypD2
    exact ⟨t', by rw [ht3]; exact ht2, hp, hass, hq3 hq2⟩

/-- Witness for C4 at `ms5`: the only agent is 80 ticks past a 20-tick
timeout with task "T1" in progress. -/
theorem c4_dead_agent_evicted_tasks_requeued_witness :
    lookupA (heartbeat_scan ms5 100 20).slaves "s1" = none ∧
    ∃ t', lookupA (heartbeat_scan ms5 100 20).tasks "T1" = some t' ∧
      t'.status = PyTaskStatus.pending ∧ t'.assigned_to = none ∧
      "T1" ∈ (heartbeat_scan ms5 100 20).task_queue := by
  have hcons5 : TasksConsistent ms5 := by
    intro tid t ht hstat a ha sid' info' hs'
    by_cases hT : ("T1" : String) = tid
    · subst hT
      have htv : t = msTask1 := by
        have hlook : lookupA ms5.tasks "T1" = some msTask1 := rfl
        rw [hlook] at ht
        exact (Option.some_inj.mp ht).symm
      subst htv
      have hav : a = "s1" := by
        have h2 := ha
        simp [msTask1] at h2
        exact h2.symm
      subst hav
      by_cases hS : ("s1" : String) = sid'
      · subst hS
        have hiv : info' = msSlave1 := by
          have hlook : lookupA ms5.slaves "s1" = some msSlave1 := rfl
          rw [hlook] at hs'
          exact (Option.some_inj.mp hs').symm
        subst hiv
        simp [msSlave1]
      · exfalso
        simp [ms5, lookupA, List.find?, hS] at hs'
    · exfalso
      simp [ms5, lookupA, List.find?, hT] at ht
  have h := c4_dead_agent_evicted_tasks_requeued ms5 100 20 "s1" msSlave1
    (by decide) hcons5 rfl (by decide)
  exact ⟨h.1, h.2 "T1" msTask1 rfl rfl rfl⟩


theorem ringList_updateRing_self (ras : List (PyRingType × List String)) (r : PyRingType)
    (f : List String → List String) :
    ringList (updateRing ras r f) r = (ringList ras r).map f := by
  induction ras with
  | nil => rfl
  | cons p tl ih =>
    by_cases h : p.1 = r
    · simp [ringList, updateRing, List.find?, h]
    · simp only [ringList, updateRing, List.map_cons] at *
      simp only [List.find?, h, if_neg h]
      simpa [h] using ih

theorem ringList_updateRing_other (ras : List (PyRingType × List String)) (r r' : PyRingType)
    (f : List String → List String) (hne : ¬r' = r) :
    ringList (updateRing ras r f) r' = ringList ras r' := by
  induction ras with
  | nil => rfl
  | cons p tl ih =>
    by_cases h : p.1 = r
    · have h2 : ¬p.1 = r' := by rw [h]; exact fun he => hne he.symm
      simp only [updateRing, List.map_cons, ringList, List.find?, if_pos h] at *
      simp only [h2, if_neg h2]
      simpa using ih
    · simp only [updateRing, List.map_cons, ringList, List.find?, if_neg h] at *
      by_cases h2 : p.1 = r'
      · simp [h2]
      · simp only [h2, if_neg h2]
        simpa using ih

theorem ringList_none_iff (ras : List (PyRingType × List String)) (r : PyRingType) :
    ringList ras r = none ↔ r ∉ ras.map Prod.fst := by
  unfold ringList
  rw [Option.map_eq_none', List.find?_eq_none]
  constructor
  · intro h hmem
    obtain ⟨p, hp, hfst⟩ := List.mem_map.mp hmem
    exact absurd (by simp [hfst]) (h p hp)
  · intro h p hp
    simp only [decide_eq_true_eq]
    exact fun he => h (List.mem_map.mpr ⟨p, hp, he⟩)

theorem updateRing_keys (ras : List (PyRingType × List String)) (r : PyRingType)
    (f : List String → List String) :
    (updateRing ras r f).map Prod.fst = ras.map Prod.fst := by
  induction ras with
  | nil => rfl
  | cons p tl ih =>
    by_cases h : p.1 = r <;> simp [updateRing, h] at * <;> simpa using ih

theorem ringList_appendToRing_self (ras : List (PyRingType × List String))
    (r : PyRingType) (sid : String) :
    ringList (appendToRing ras r sid) r =
      some (((ringList ras r).getD []) ++ [sid]) := by
  unfold appendToRing
  cases hfind : ras.find? (fun p => p.1 = r) with
  | some p =>
    have hthis : ringList ras r = some p.2 := by simp [ringList, hfind]
    simp only [Option.isSome_some, if_true]
    rw [ringList_updateRing_self, hthis]
    rfl
  | none =>
    simp only [Option.isSome_none, Bool.false_eq_true, if_false]
    have hrl : ringList ras r = none := by simp [ringList, hfind]
    rw [hrl]
    unfold ringList
    rw [List.find?_append, hfind]
    simp [List.find?]

theorem ringList_appendToRing_other (ras : List (PyRingType × List String))
    (r r' : PyRingType) (sid : String) (hne : ¬r' = r) :
    ringList (appendToRing ras r sid) r' = ringList ras r' := by
  unfold appendToRing
  cases hfind : ras.find? (fun p => p.1 = r) with
  | some p =>
    simp only [Option.isSome_some, if_true]
    exact ringList_updateRing_other ras r r' _ hne
  | none =>
    simp only [Option.isSome_none, Bool.false_eq_true, if_false]
    unfold ringList
    rw [List.find?_append]
    have hone : List.find? (fun p => p.1 = r') [(r, [sid])] = none := by
      have : ¬r = r' := fun he => hne he.symm
      simp [List.find?, this]
    rw [hone]
    cases ras.find? (fun p => p.1 = r') <;> rfl

theorem appendToRing_keys (ras : List (PyRingType × List String)) (r : PyRingType)
    (sid : String) (hnd : (ras.map Prod.fst).Nodup) :
    ((appendToRing ras r sid).map Prod.fst).Nodup := by
  unfold appendToRing
  cases hfind : ras.find? (fun p => p.1 = r) with
  | some p =>
    simp only [Option.isSome_some, if_true]
    rw [updateRing_keys]
    exact hnd
  | none =>
    simp only [Option.isSome_none, Bool.false_eq_true, if_false]
    have hnotin : r ∉ ras.map Prod.fst := by
      refine (ringList_none_iff ras r).mp ?_
      simp [ringList, hfind]
    rw [List.map_append]
    refine List.Nodup.append hnd (List.nodup_singleton r) ?_
    intro x hx hx2
    simp only [List.map_cons, List.map_nil, List.mem_singleton] at hx2
    exact hnotin (hx2 ▸ hx)

theorem ringList_map_snd (ras : List (PyRingType × List String))
    (g : List String → List String) (r : PyRingType) :
    ringList (ras.map fun p => (p.1, g p.2)) r = (ringList ras r).map g := by
  induction ras with
  | nil => rfl
  | cons p tl ih =>
    by_cases h : p.1 = r
    · simp [ringList, List.find?, h]
    · simp only [ringList, List.map_cons, List.find?, h, if_neg h] at *
      simpa [h] using ih

theorem RingWF.atMostOne {st : RingState} (hwf : RingWF st) :
    atMostOneRing st.ring_assignments := by
  intro sid r1 r2 l1 l2 h1 h2 m1 m2
  obtain ⟨d1, hd1, hr1⟩ := hwf.2.2.1 r1 l1 sid h1 m1
  obtain ⟨d2, hd2, hr2⟩ := hwf.2.2.1 r2 l2 sid h2 m2
  have : d1 = d2 := Option.some_inj.mp (hd1 ▸ hd2 ▸ rfl)
  rw [← hr1, ← hr2, this]

theorem assign_slave_to_ring_wf (st : RingState) (sid : String) (ring : PyRingType)
    (hwf : RingWF st) : RingWF (assign_slave_to_ring st sid ring) := by
  obtain ⟨hkeys, hnodups, hcons, hds⟩ := hwf
  unfold assign_slave_to_ring
  by_cases hin : sid ∉ st.slaves
  · rw [if_pos hin]
    exact ⟨hkeys, hnodups, hcons, hds⟩
  · rw [if_neg hin]
    have hin' : sid ∈ st.slaves := not_not.mp hin
    obtain ⟨d, hd⟩ := Option.isSome_iff_exists.mp (hds sid hin')
    rw [hd]
    simp only []
    set old := d.assigned_ring with hold
    set ras1 := updateRing st.ring_assignments old (fun l => l.erase sid) with hras1
    -- sid is in no list of ras1
    have F1 : ∀ r l, ringList ras1 r = some l → sid ∉ l := by
      intro r l hl hmem
      by_cases hr : r = old
      · rw [hras1, hr, ringList_updateRing_self] at hl
        cases hl0 : ringList st.ring_assignments old with
        | none => rw [hl0] at hl; cases hl
        | some l0 =>
          rw [hl0] at hl
          have hl' : l = l0.erase sid := by simpa using hl.symm
          rw [hl'] at hmem
          exact (((hnodups old l0 hl0).mem_erase_iff).mp hmem).1 rfl
      · rw [hras1, ringList_updateRing_other _ _ _ _ hr] at hl
        obtain ⟨d', hd', hrd'⟩ := hcons r l sid hl hmem
        have : d' = d := Option.some_inj.mp (hd' ▸ hd ▸ rfl)
        exact hr (by rw [← hrd', this, hold])
    -- lists of ras1 are duplicate-free
    have F2 : ∀ r l, ringList ras1 r = some l → l.Nodup := by
      intro r l hl
      by_cases hr : r = old
      · rw [hras1, hr, ringList_updateRing_self] at hl
        cases hl0 : ringList st.ring_assignments old with
        | none => rw [hl0] at hl; cases hl
        | some l0 =>
          rw [hl0] at hl
          have hl' : l = l0.erase sid := by simpa using hl.symm
          rw [hl']
          exact (hnodups old l0 hl0).erase sid
      · rw [hras1, ringList_updateRing_other _ _ _ _ hr] at hl
        exact hnodups r l hl
    -- members of ras1 lists were members of the old lists
    have F4 : ∀ r l, ringList ras1 r = some l → ∀ x ∈ l,
        ∃ l0, ringList st.ring_assignments r = some l0 ∧ x ∈ l0 := by
      intro r l hl x hx
      by_cases hr : r = old
      · rw [hras1, hr, ringList_updateRing_self] at hl
        cases hl0 : ringList st.ring_assignments old with
        | none => rw [hl0] at hl; cases hl
        | some l0 =>
          rw [hl0] at hl
          have hl' : l = l0.erase sid := by simpa using hl.symm
          exact ⟨l0, by rw [hr]; exact hl0, List.mem_of_mem_erase (hl' ▸ hx)⟩
      · rw [hras1, ringList_updateRing_other _ _ _ _ hr] at hl
        exact ⟨l, hl, hx⟩
    have hkeys1 : (ras1.map Prod.fst).Nodup := by
      rw [hras1, updateRing_keys]; exact hkeys
    refine ⟨appendToRing_keys ras1 ring sid hkeys1, ?_, ?_, ?_⟩
    · -- duplicate-freedom of the new lists
      intro r l hl
      by_cases hr : r = ring
      · subst hr
        rw [ringList_appendToRing_self] at hl
        have hl' : l = (ringList ras1 r).getD [] ++ [sid] := by simpa using hl.symm
        rw [hl']
        have hbase_nodup : ((ringList ras1 r).getD []).Nodup := by
          cases hb : ringList ras1 r with
          | none => exact List.nodup_nil
          | some lb => exact F2 r lb hb
        have hbase_nomem : sid ∉ (ringList ras1 r).getD [] := by
          cases hb : ringList ras1 r with
          | none => simp
          | some lb => simpa using F1 r lb hb
        refine List.Nodup.append hbase_nodup (List.nodup_singleton sid) ?_
        intro x hx hx2
        simp only [List.mem_singleton] at hx2
        exact hbase_nomem (hx2 ▸ hx)
      · rw [ringList_appendToRing_other _ _ _ _ hr] at hl
        exact F2 r l hl
    · -- consistency of membership with the recorded ring
      intro r l x hl hx
      by_cases hxsid : x = sid
      · subst hxsid
        have hreq : r = ring := by
          by_contra hr
          rw [ringList_appendToRing_other _ _ _ _ hr] at hl
          exact F1 r l hl hx
        refine ⟨{ d with assigned_ring := ring }, ?_, by rw [hreq]⟩
        dsimp only
        rw [lookupA_updateA_self, hd]
        rfl
      · have hlook : lookupA (updateA st.device_statuses sid
            (fun d => { d with assigned_ring := ring })) x = lookupA st.device_statuses x :=
          lookupA_updateA_other _ _ _ _ hxsid
        have hx1 : ∃ l1, ringList ras1 r = some l1 ∧ x ∈ l1 := by
          by_cases hr : r = ring
          · subst hr
            rw [ringList_appendToRing_self] at hl
            have hl' : l = (ringList ras1 r).getD [] ++ [sid] := by simpa using hl.symm
            rw [hl'] at hx
            rcases List.mem_append.mp hx with hx | hx
            · cases hb : ringList ras1 r with
              | none => rw [hb] at hx; cases hx
              | some lb => exact ⟨lb, rfl, by rw [hb] at hx; exact hx⟩
            · exact absurd (List.mem_singleton.mp hx) hxsid
          · rw [ringList_appendToRing_other _ _ _ _ hr] at hl
            exact ⟨l, hl, hx⟩
        obtain ⟨l1, hl1, hxl1⟩ := hx1
        obtain ⟨l0, hl0, hxl0⟩ := F4 r l1 hl1 x hxl1
        obtain ⟨d', hd', hrd'⟩ := hcons r l0 x hl0 hxl0
        refine ⟨d', ?_, hrd'⟩
        dsimp only
        rw [hlook]
        exact hd'
    · -- every registered slave still has a device status
      intro x hx
      dsimp only
      rw [lookupA_isSome_updateA]
      exact hds x hx

theorem rm_assign_to_ring_wf (st : RMState) (sid : String) (ring : PyRingType)
    (hwf : RMWF st) : RMWF (rm_assign_to_ring st sid ring) := by
  obtain ⟨hkeys, hnodups, hamo⟩ := hwf
  unfold rm_assign_to_ring
  have hmapeq : (st.ring_assignments.map fun p =>
      (p.1, if sid ∈ p.2 then p.2.erase sid else p.2)) =
      st.ring_assignments.map fun p => (p.1, p.2.erase sid) := by
    apply List.map_congr_left
    intro p _
    by_cases h : sid ∈ p.2
    · simp [h]
    · simp [h, List.erase_of_not_mem h]
  rw [hmapeq]
  set ras1 := st.ring_assignments.map fun p => (p.1, p.2.erase sid) with hras1
  have hlist1 : ∀ r, ringList ras1 r = (ringList st.ring_assignments r).map
      (fun l => l.erase sid) := by
    intro r
    rw [hras1]
    exact ringList_map_snd st.ring_assignments (fun l => l.erase sid) r
  have F1 : ∀ r l, ringList ras1 r = some l → sid ∉ l := by
    intro r l hl hmem
    rw [hlist1] at hl
    cases hl0 : ringList st.ring_assignments r with
    | none => rw [hl0] at hl; cases hl
    | some l0 =>
      rw [hl0] at hl
      have hl' : l = l0.erase sid := by simpa using hl.symm
      rw [hl'] at hmem
      exact (((hnodups r l0 hl0).mem_erase_iff).mp hmem).1 rfl
  have F2 : ∀ r l, ringList ras1 r = some l → l.Nodup := by
    intro r l hl
    rw [hlist1] at hl
    cases hl0 : ringList st.ring_assignments r with
    | none => rw [hl0] at hl; cases hl
    | some l0 =>
      rw [hl0] at hl
      have hl' : l = l0.erase sid := by simpa using hl.symm
      rw [hl']
      exact (hnodups r l0 hl0).erase sid
  have F4 : ∀ r l, ringList ras1 r = some l → ∀ x ∈ l,
      ∃ l0, ringList st.ring_assignments r = some l0 ∧ x ∈ l0 := by
    intro r l hl x hx
    rw [hlist1] at hl
    cases hl0 : ringList st.ring_assignments r with
    | none => rw [hl0] at hl; cases hl
    | some l0 =>
      rw [hl0] at hl
      have hl' : l = l0.erase sid := by simpa using hl.symm
      exact ⟨l0, rfl, List.mem_of_mem_erase (hl' ▸ hx)⟩
  have hkeys1 : (ras1.map Prod.fst).Nodup := by
    rw [hras1, List.map_map]
    exact hkeys
  refine ⟨appendToRing_keys ras1 ring sid hkeys1, ?_, ?_⟩
  · intro r l hl
    by_cases hr : r = ring
    · rw [hr, ringList_appendToRing_self] at hl
      have hl' : l = (ringList ras1 ring).getD [] ++ [sid] := by simpa using hl.symm
      rw [hl']
      have hbase_nodup : ((ringList ras1 ring).getD []).Nodup := by
        cases hb : ringList ras1 ring with
        | none => exact List.nodup_nil
        | some lb => exact F2 ring lb hb
      have hbase_nomem : sid ∉ (ringList ras1 ring).getD [] := by
        cases hb : ringList ras1 ring with
        | none => simp
        | some lb => simpa using F1 ring lb hb
      refine List.Nodup.append hbase_nodup (List.nodup_singleton sid) ?_
      intro x hx hx2
      simp only [List.mem_singleton] at hx2
      exact hbase_nomem (hx2 ▸ hx)
    · rw [ringList_appendToRing_other _ _ _ _ hr] at hl
      exact F2 r l hl
  · -- each agent in at most one ring
    intro x r1 r2 l1 l2 h1 h2 m1 m2
    by_cases hxsid : x = sid
    · subst hxsid
      have hr1 : r1 = ring := by
        by_contra hr
        rw [ringList_appendToRing_other _ _ _ _ hr] at h1
        exact F1 r1 l1 h1 m1
      have hr2 : r2 = ring := by
        by_contra hr
        rw [ringList_appendToRing_other _ _ _ _ hr] at h2
        exact F1 r2 l2 h2 m2
      rw [hr1, hr2]
    · have htrans : ∀ r l, ringList (appendToRing ras1 ring sid) r = some l → x ∈ l →
          ∃ l0, ringList st.ring_assignments r = some l0 ∧ x ∈ l0 := by
        intro r l hl hx
        by_cases hr : r = ring
        · rw [hr, ringList_appendToRing_self] at hl
          have hl' : l = (ringList ras1 ring).getD [] ++ [sid] := by simpa using hl.symm
          rw [hl'] at hx
          rcases List.mem_append.mp hx with hx | hx
          · cases hb : ringList ras1 ring with
            | none => rw [hb] at hx; cases hx
            | some lb =>
              rw [hb] at hx
              obtain ⟨l0, hl0, hxl0⟩ := F4 ring lb hb x hx
              exact ⟨l0, by rw [hr]; exact hl0, hxl0⟩
          · exact absurd (List.mem_singleton.mp hx) hxsid
        · rw [ringList_appendToRing_other _ _ _ _ hr] at hl
          exact F4 r l hl x hx
      obtain ⟨l01, hl01, hx01⟩ := htrans r1 l1 h1 m1
      obtain ⟨l02, hl02, hx02⟩ := htrans r2 l2 h2 m2
      exact hamo x r1 r2 l01 l02 hl01 hl02 hx01 hx02

theorem applyAssignOps_wf (ops : List (String × PyRingType)) (st : RingState)
    (hwf : RingWF st) : RingWF (applyAssignOps ops st) := by
  induction ops generalizing st with
  | nil => exact hwf
  | cons op rest ih =>
    exact ih _ (assign_slave_to_ring_wf st op.1 op.2 hwf)

theorem applyRMOps_wf (ops : List (String × PyRingType)) (st : RMState)
    (hwf : RMWF st) : RMWF (applyRMOps ops st) := by
  induction ops generalizing st with
  | nil => exact hwf
  | cons op rest ih =>
    exact ih _ (rm_assign_to_ring_wf st op.1 op.2 hwf)

/-- **C9**: from any well-formed state, no sequence of ring
(re)assignments — auto-assignment, rebalance moves and manual assignments
all funnel into `assign_slave_to_ring` (orchestrator) or `assign_to_ring`
(simulator `RingManager`) — ever leaves an agent as a member of two rings:
each operation removes the device from its old ring's membership list
before appending it to the new one, and the at-most-one-ring property is
an invariant of both implementations. -/
theorem c9_agent_in_at_most_one_ring :
    (∀ (ops : List (String × PyRingType)) (st : RingState), RingWF st →
      RingWF (applyAssignOps ops st) ∧
      atMostOneRing (applyAssignOps ops st).ring_assignments) ∧
    (∀ (ops : List (String × PyRingType)) (st : RMState), RMWF st →
      RMWF (applyRMOps ops st) ∧
      atMostOneRing (applyRMOps ops st).ring_assignments) := by
  constructor
  · intro ops st hwf
    have h := applyAssignOps_wf ops st hwf
    exact ⟨h, h.atMostOne⟩
  · intro ops st hwf
    have h := applyRMOps_wf ops st hwf
    exact ⟨h, h.2.2⟩

/-- Witness for C9: two successive reassignments of "s1" in each
implementation, starting from well-formed single-device states. -/
theorem c9_agent_in_at_most_one_ring_witness :
    atMostOneRing (applyAssignOps [("s1", PyRingType.canary), ("s1", PyRingType.dev)]
      ringSt0).ring_assignments ∧
    atMostOneRing (applyRMOps [("s1", PyRingType.canary), ("s1", PyRingType.prod)]
      rmSt0).ring_assignments := by
  have h := c9_agent_in_at_most_one_ring
  have hwf0 : RingWF ringSt0 := by
    refine ⟨List.nodup_nil, ?_, ?_, ?_⟩
    · intro r l hl
      simp [ringList, ringSt0] at hl
    · intro r l x hl
      simp [ringList, ringSt0] at hl
    · intro x hx
      rcases List.mem_singleton.mp hx with rfl
      rfl
  have hwfrm : RMWF rmSt0 := by
    refine ⟨List.nodup_nil, ?_, ?_⟩
    · intro r l hl
      simp [ringList, rmSt0] at hl
    · intro x r1 r2 l1 l2 h1
      simp [ringList, rmSt0] at h1
  exact ⟨(h.1 _ ringSt0 hwf0).2, (h.2 _ rmSt0 hwfrm).2⟩

end FlexDeploy
